import Mathlib

/-! A verification development for the BBC news scraper (`main.go`).

The program fetches article pages, extracts a title, image URLs and body
paragraphs with ordered lists of CSS selectors, and renders the result as JSON
or as a generated HTML document.

Modelling conventions.

* A Go `string` is a Lean `String` (valid Unicode text).  Where the program
  works on bytes (`len`, `time[:4]`) the UTF-8 encoding of the string is used.
* The Go standard-library functions the program calls (`strings.TrimSpace`,
  `strings.Split`, `strings.HasPrefix`, `strings.Contains`) are given by
  structurally recursive definitions on the characters of the string.
* A parsed page is seen through goquery as a function from a selector to the
  list of matched elements in document order.
* A `strings.Builder` is the list of the strings written to it; `String()` is
  their concatenation.
* A run-time panic is the result `none`.
-/

/-! ## The Go standard library functions used by the program -/

namespace unicode

/-- Go `unicode.IsSpace`: the code points with the Unicode White_Space property. -/
def IsSpace (c : Char) : Bool :=
  let n := c.toNat
  (0x09 ≤ n && n ≤ 0x0D) || n == 0x20 || n == 0x85 || n == 0xA0 || n == 0x1680 ||
    (0x2000 ≤ n && n ≤ 0x200A) || n == 0x2028 || n == 0x2029 || n == 0x202F ||
    n == 0x205F || n == 0x3000

end unicode

namespace strings

/-- Characters of a string with leading and trailing white space removed. -/
def trimChars (l : List Char) : List Char :=
  ((l.dropWhile unicode.IsSpace).reverse.dropWhile unicode.IsSpace).reverse

/-- Go `strings.TrimSpace`. -/
def TrimSpace (s : String) : String := ⟨trimChars s.data⟩

/-- Pieces of a character list between occurrences of the separator `sep`. -/
def splitChars (sep : Char) : List Char → List (List Char)
  | [] => [[]]
  | c :: cs =>
    if c = sep then [] :: splitChars sep cs
    else
      match splitChars sep cs with
      | [] => [[c]]
      | p :: ps => (c :: p) :: ps

/-- Go `strings.Split(s, sep)` for a separator of one ASCII character (the program
only splits on a newline, a comma and a blank). -/
def Split (s : String) (sep : Char) : List String :=
  (splitChars sep s.data).map String.mk

/-- Go `strings.HasPrefix`. -/
def HasPrefix (s pre : String) : Bool := pre.data.isPrefixOf s.data

/-- Whether `sub` occurs in `l` as a contiguous block. -/
def containsChars (sub : List Char) : List Char → Bool
  | [] => sub.isPrefixOf []
  | c :: cs => sub.isPrefixOf (c :: cs) || containsChars sub cs

/-- Go `strings.Contains`. -/
def Contains (s sub : String) : Bool := containsChars sub.data s.data

/-- Go `strings.Builder`: the strings written so far, oldest first. -/
structure Builder where
  writes : List String
deriving Repr, DecidableEq

/-- A fresh `strings.Builder`. -/
def Builder.empty : Builder := ⟨[]⟩

/-- Go `(*Builder).WriteString`. -/
def Builder.WriteString (b : Builder) (s : String) : Builder := ⟨b.writes ++ [s]⟩

/-- Go `(*Builder).String`: everything written, concatenated. -/
def Builder.String (b : Builder) : String := ⟨(b.writes.map String.data).flatten⟩

end strings

/-- The UTF-8 bytes of a string, which is what a Go `string` holds. -/
def utf8 (s : String) : List UInt8 := s.data.flatMap String.utf8EncodeChar

/-- Go `len(s)`: the number of bytes of the string. -/
def len (s : String) : Nat := (utf8 s).length

/-- Go `s[:n]`: the first `n` bytes, or a panic (slice bounds out of range) when
the string has fewer than `n` bytes. -/
def sliceTo (s : String) (n : Nat) : Option (List UInt8) :=
  if n ≤ len s then some ((utf8 s).take n) else none

/-! ## The parsed page -/

/-- One element of a goquery selection. -/
structure Node where
  /-- Result of `s.Text()`. -/
  text : String
  /-- Attributes of the element, in source order. -/
  attrs : List (String × String)
deriving Repr, DecidableEq

/-- Go `s.Attr(name)`: the value of the attribute, when the element has it. -/
def Node.Attr (s : Node) (name : String) : Option String := s.attrs.lookup name

/-- A parsed page as goquery shows it. -/
structure Document where
  /-- Matches of `doc.Find(selector)`, in document order. -/
  find : String → List Node
  /-- Matches of `doc.Find(outer).Find(inner)`, in document order. -/
  findIn : String → String → List Node

/-- Go `sel.First().Text()`: the text of the first match, empty when there is none. -/
def firstText : List Node → String
  | [] => ""
  | s :: _ => s.text

/-! ## `getNewsContent` -/

/-- The list `titleSelectors` of `getNewsContent`. -/
def titleSelectors : List String :=
  [ "h1[tabindex='-1']",
    "h1.story-body__h1",
    "h1.bbc-title-lg",
    ".article-headline__text",
    ".story-body h1",
    "article h1",
    ".article__header h1",
    "#main-heading",
    ".vxp-media__headline" ]

/-- The list `imageSelectors` of `getNewsContent`. -/
def imageSelectors : List String :=
  [ ".article__body-content img",
    ".story-body__inner img",
    ".article-body-container img",
    ".body-content-container img",
    "[data-component='image-block'] img",
    ".article__body img",
    ".body-text-card img",
    ".article-body__image-container img",
    "figure.image-block img",
    "figure.media-with-caption img",
    ".js-image-replace",
    "figure img.bbc-image",
    "figure img.js-image-replace",
    "figure img.sp-media-asset_img",
    ".article__inline-image img",
    ".article-figure__image img",
    ".image-block img",
    ".vxp-media__player img",
    ".image-and-copyright-container img",
    ".js-delayed-image-load",
    "picture source",
    ".responsive-image img",
    "img[data-src]",
    "img[data-delayed-src]",
    "meta[property='og:image']",
    "meta[name='twitter:image']",
    "article img",
    ".content img",
    "main img" ]

/-- The list `possibleAttrs` of `getNewsContent`. -/
def possibleAttrs : List String :=
  [ "data-src", "src", "data-delayed-src", "data-original", "data-highres", "content", "srcset" ]

/-- The list `contentSelectors` of `getNewsContent`. -/
def contentSelectors : List String :=
  [ "article[role='main'] p",
    ".story-body__inner p",
    ".article__body-content p",
    ".article-body-container p",
    "[data-component='text-block'] p",
    ".bbc-19j92fr p",
    ".story-body__inner div.mapped-include p",
    ".body-content-container p",
    ".article__body p",
    ".vxp-media__summary p" ]

/-- The title loop: the first selector whose first match has non-blank text
writes `title + "\n\n"` to the content and stops the loop. -/
def titleLoop (doc : Document) (content : strings.Builder) : List String → strings.Builder
  | [] => content
  | selector :: rest =>
    let title := strings.TrimSpace (firstText (doc.find selector))
    if title ≠ "" then content.WriteString (title ++ "\n\n")
    else titleLoop doc content rest

/-- The value `imgURL` computed from the attribute `attr` with value `val`. -/
def imgURLOf (attr val : String) : String :=
  if attr = "srcset" then
    match strings.Split val ',' with
    | [] => ""
    | part0 :: _ =>
      let firstSrcset := (strings.Split (strings.TrimSpace part0) ' ').headD ""
      if firstSrcset ≠ "" then firstSrcset else ""
  else if strings.HasPrefix val "//" then "https:" ++ val
  else if !strings.HasPrefix val "http" && !strings.HasPrefix val "/" then
    "https://www.bbc.com/" ++ val
  else if strings.HasPrefix val "/" then "https://www.bbc.com" ++ val
  else val

/-- The extension test applied to `imgURL` before it is recorded. -/
def isImageURL (imgURL : String) : Bool :=
  strings.Contains imgURL ".jpg" || strings.Contains imgURL ".jpeg" ||
    strings.Contains imgURL ".png" || strings.Contains imgURL ".gif" ||
    strings.Contains imgURL ".webp"

/-- The two variables the image loop updates: the map `seenURLs` (a missing key
reads as `false`) and the slice `imageURLs`. -/
structure ImageState where
  seenURLs : String → Bool
  imageURLs : List String

/-- State before the image loop: an empty map and a nil slice. -/
def ImageState.init : ImageState := ⟨fun _ => false, []⟩

/-- What the loop does with the `imgURL` computed from an attribute: it is
recorded when it is not empty, not seen before and looks like an image URL. -/
def recordImage (st : ImageState) (imgURL : String) : ImageState :=
  if imgURL ≠ "" ∧ !st.seenURLs imgURL then
    if isImageURL imgURL then
      { seenURLs := fun k => if k = imgURL then true else st.seenURLs k,
        imageURLs := st.imageURLs ++ [imgURL] }
    else st
  else st

/-- The loop over `possibleAttrs` for one element: the first attribute that exists
with a non-empty value is used, and the loop stops there. -/
def attrLoop (s : Node) (st : ImageState) : List String → ImageState
  | [] => st
  | attr :: rest =>
    match s.Attr attr with
    | some val => if val ≠ "" then recordImage st (imgURLOf attr val) else attrLoop s st rest
    | none => attrLoop s st rest

/-- The callback of `doc.Find(selector).Each` in the image loop. -/
def imageEach (st : ImageState) (s : Node) : ImageState := attrLoop s st possibleAttrs

/-- The loop over `imageSelectors`; it has no `break`. -/
def imageLoop (doc : Document) (st : ImageState) (selectors : List String) : ImageState :=
  selectors.foldl (fun st selector => (doc.find selector).foldl imageEach st) st

/-- The variables the content loops update. -/
structure ContentState where
  content : strings.Builder
  paragraphCount : Nat
  contentFound : Bool

/-- The callback of `Each` in the content loops; `setFound` tells whether the
callback assigns `contentFound = true` (the loop over `contentSelectors` does,
the generic fallback does not). -/
def paragraphEach (setFound : Bool) (st : ContentState) (s : Node) : ContentState :=
  let text := strings.TrimSpace s.text
  if text ≠ "" then
    { content := st.content.WriteString (text ++ "\n"),
      paragraphCount := st.paragraphCount + 1,
      contentFound := setFound || st.contentFound }
  else st

/-- The loop over `contentSelectors`, which stops after the first selector that
set `contentFound`. -/
def contentLoop (doc : Document) (st : ContentState) : List String → ContentState
  | [] => st
  | selector :: rest =>
    let st1 := (doc.find selector).foldl (paragraphEach true) st
    if st1.contentFound then st1 else contentLoop doc st1 rest

/-- The content loop followed by the generic fallback over `article` then `p`. -/
def extractBody (doc : Document) (content : strings.Builder) : ContentState :=
  let st := contentLoop doc ⟨content, 0, false⟩ contentSelectors
  if !st.contentFound then (doc.findIn "article" "p").foldl (paragraphEach false) st
  else st

/-- The part of `getNewsContent` that runs once the page is fetched and parsed.
`t2s` is the converter `t2s.Convert` of the external library gocc. The result is
the error message, or the content and the image list. -/
def getNewsContent (t2s : String → Except String String) (doc : Document) :
    Except String (String × List String) :=
  let content := titleLoop doc strings.Builder.empty titleSelectors
  let images := imageLoop doc ImageState.init imageSelectors
  let st := extractBody doc content
  match t2s st.content.String with
  | .error err => .error ("繁体转简体失败: " ++ err)
  | .ok contentStr =>
    if contentStr = "" then .error "无法提取文章内容"
    else .ok (contentStr, images.imageURLs)

/-! ## The paragraph lists built by the HTTP handlers -/

/-- The loop of the `/api/news/top` handler that fills `filteredParagraphs`:
non-blank lines of the content, each appended trimmed. -/
def topHandler.filteredParagraphs (content : String) : List String :=
  (strings.Split content '\n').foldl
    (fun filteredParagraphs p =>
      if strings.TrimSpace p ≠ "" then filteredParagraphs ++ [strings.TrimSpace p]
      else filteredParagraphs) []

/-- The loop of the `/news` handler that fills `filteredParagraphs`:
non-blank lines of the content, each appended trimmed. -/
def newsHandler.filteredParagraphs (content : String) : List String :=
  (strings.Split content '\n').foldl
    (fun filteredParagraphs p =>
      if strings.TrimSpace p ≠ "" then filteredParagraphs ++ [strings.TrimSpace p]
      else filteredParagraphs) []

/-- The loop of the `/api/news/content` handler that fills `filteredParagraphs`:
non-blank lines of the content, each appended as it is. -/
def contentHandler.filteredParagraphs (content : String) : List String :=
  (strings.Split content '\n').foldl
    (fun filteredParagraphs p =>
      if strings.TrimSpace p ≠ "" then filteredParagraphs ++ [p]
      else filteredParagraphs) []

/-- The expression `filteredParagraphs[0]` of the `/api/news/content` handler, used
as the title; an index out of range is a panic. -/
def contentHandler.title (content : String) : Option String :=
  (contentHandler.filteredParagraphs content)[0]?

/-! ## `generateHTML` -/

/-- One call of `html.WriteString` in `generateHTML`, named after the place of the
call in the function. -/
inductive HtmlWrite where
  /-- The document head up to the opening of the content division. -/
  | head (title time : String)
  /-- The first image, written before the paragraph loop. -/
  | headerImage (url : String)
  /-- One paragraph tag, written by the paragraph loop. -/
  | paragraph (p : String)
  /-- An image written by the paragraph loop. -/
  | inlineImage (url : String)
  /-- The closing part with the copyright lines; `year` is `time[:4]`. -/
  | footer (year : List UInt8)
deriving Repr, DecidableEq

/-- The line of the footer that carries the year. -/
def copyrightLine (year : List UInt8) : List UInt8 :=
  utf8 "Copyright " ++ year ++ utf8 " BBC. 保留所有权利。"

/-- The text passed to `html.WriteString` by each call, as bytes. -/
def HtmlWrite.render : HtmlWrite → List UInt8
  | .head title time => utf8 ("
<!DOCTYPE html>
<html>
<head>
    <meta charset=\"UTF-8\">
    <meta name=\"viewport\" content=\"width=device-width, initial-scale=1.0\">
    <title>" ++ title ++ "</title>
    <style>
        body \x7b
            font-family: -apple-system, BlinkMacSystemFont, \"Segoe UI\", Roboto, \"Helvetica Neue\", Arial, sans-serif;
            line-height: 1.6;
            color: #333;
            max-width: 800px;
            margin: 0 auto;
            padding: 20px;
            background-color: #f8f8f8;
        \x7d
        .article \x7b
            background: white;
            border-radius: 8px;
            box-shadow: 0 2px 8px rgba(0, 0, 0, 0.1);
            padding: 30px;
            margin-bottom: 20px;
        \x7d
        .title \x7b
            font-size: 24px;
            font-weight: bold;
            margin-bottom: 10px;
            color: #1a1a1a;
            text-align: center;
        \x7d
        .meta \x7b
            font-size: 14px;
            color: #888;
            margin-bottom: 20px;
            text-align: center;
        \x7d
        .content \x7b
            font-size: 16px;
            line-height: 1.8;
            color: #333;
        \x7d
        .content p \x7b
            margin-bottom: 16px;
            text-align: justify;
        \x7d
        .image-container \x7b
            margin: 20px 0;
            text-align: center;
        \x7d
        .image-container img \x7b
            max-width: 100%;
            height: auto;
            border-radius: 4px;
            box-shadow: 0 2px 4px rgba(0, 0, 0, 0.1);
        \x7d
        .copyright \x7b
            margin-top: 30px;
            padding-top: 20px;
            border-top: 1px solid #eee;
            font-size: 12px;
            color: #999;
            text-align: center;
        \x7d
        @media (max-width: 600px) \x7b
            body \x7b
                padding: 15px;
            \x7d
            .article \x7b
                padding: 20px;
            \x7d
            .title \x7b
                font-size: 20px;
            \x7d
        \x7d
    </style>
</head>
<body>
    <div class=\"article\">
        <h1 class=\"title\">" ++ title ++ "</h1>
        <div class=\"meta\">" ++ time ++ "</div>
        <div class=\"content\">")
  | .headerImage url => utf8 ("
            <div class=\"image-container\">
                <img src=\"" ++ url ++ "\" alt=\"头图\">
            </div>")
  | .paragraph p => utf8 ("<p>" ++ p ++ "</p>")
  | .inlineImage url => utf8 ("
            <div class=\"image-container\">
                <img src=\"" ++ url ++ "\" alt=\"配图\">
            </div>")
  | .footer year => utf8 "
        </div>
        <div class=\"copyright\">
            <p>本文内容来源于BBC中文网，如有侵权请联系必删</p>
            <p>" ++ copyrightLine year ++ utf8 "</p>
        </div>
    </div>
</body>
</html>"

/-- Whether a write is an image-container block. -/
def HtmlWrite.isImage : HtmlWrite → Bool
  | .headerImage _ => true
  | .inlineImage _ => true
  | _ => false

/-- Whether a write is a paragraph tag. -/
def HtmlWrite.isParagraph : HtmlWrite → Bool
  | .paragraph _ => true
  | _ => false

/-- The variables the paragraph loop of `generateHTML` updates. -/
structure RenderState where
  html : List HtmlWrite
  imageIndex : Nat
  paragraphCount : Nat
deriving Repr, DecidableEq

/-- One round of the paragraph loop of `generateHTML`. -/
def generateHTML.step (imageURLs : List String) (st : RenderState) (p : String) :
    RenderState :=
  let p := strings.TrimSpace p
  if p = "" then st
  else
    let html := st.html ++ [HtmlWrite.paragraph p]
    let paragraphCount := st.paragraphCount + 1
    if h : st.imageIndex < imageURLs.length ∧ paragraphCount ≥ 5 ∧ paragraphCount ≤ 7 then
      { html := html ++ [HtmlWrite.inlineImage (imageURLs.get ⟨st.imageIndex, h.1⟩)],
        imageIndex := st.imageIndex + 1,
        paragraphCount := 0 }
    else { html := html, imageIndex := st.imageIndex, paragraphCount := paragraphCount }

/-- State of `generateHTML` when the paragraph loop starts: the head is written,
and the first image when there is one. -/
def generateHTML.start (title time : String) (imageURLs : List String) : RenderState :=
  match imageURLs with
  | [] => { html := [HtmlWrite.head title time], imageIndex := 0, paragraphCount := 0 }
  | url :: _ =>
    { html := [HtmlWrite.head title time, HtmlWrite.headerImage url],
      imageIndex := 1, paragraphCount := 0 }

/-- State of `generateHTML` when the paragraph loop ends. -/
def generateHTML.loop (title time content : String) (imageURLs : List String) : RenderState :=
  let paragraphs := strings.Split content '\n'
  paragraphs.foldl (generateHTML.step imageURLs) (generateHTML.start title time imageURLs)

/-- The calls of `html.WriteString` made by `generateHTML`, in order; `none` when
`time[:4]` panics. -/
def generateHTML.writes (title time content : String) (imageURLs : List String) :
    Option (List HtmlWrite) :=
  let st := generateHTML.loop title time content imageURLs
  match sliceTo time 4 with
  | none => none
  | some year => some (st.html ++ [HtmlWrite.footer year])

/-- Go `generateHTML`: the bytes of the document, or `none` when it panics. -/
def generateHTML (title time content : String) (imageURLs : List String) :
    Option (List UInt8) :=
  (generateHTML.writes title time content imageURLs).map
    (fun ws => (ws.map HtmlWrite.render).flatten)

/-! ## Definitions used to state the properties -/

/-- The lines of `content` that are not blank (`strings.TrimSpace` leaves something). -/
def nonBlankLines (content : String) : List String :=
  (strings.Split content '\n').filter (fun p => decide (strings.TrimSpace p ≠ ""))

/-- The trimmed, non-empty texts of a selection, in document order. -/
def paragraphTexts (nodes : List Node) : List String :=
  (nodes.map (fun s => strings.TrimSpace s.text)).filter (fun text => decide (text ≠ ""))

/-- The first title found: the trimmed text of the first match of the first
selector of the list for which that text is not empty. -/
def titleOf (doc : Document) (selectors : List String) : Option String :=
  (selectors.map (fun selector => strings.TrimSpace (firstText (doc.find selector)))).find?
    (fun title => decide (title ≠ ""))

/-- The body paragraphs as the specification describes them: the trimmed non-empty
texts of the matches of the first selector of `contentSelectors` that has any, and
otherwise those of all `p` elements inside any `article` element. -/
def specBodyParagraphs (doc : Document) : List String :=
  match contentSelectors.find? (fun selector => decide (paragraphTexts (doc.find selector) ≠ [])) with
  | some selector => paragraphTexts (doc.find selector)
  | none => paragraphTexts (doc.findIn "article" "p")

/-- Two characters of the same kind: both or neither a newline, both or neither
white space. -/
def sameKind (a b : Char) : Prop :=
  (a = '\n' ↔ b = '\n') ∧ unicode.IsSpace a = unicode.IsSpace b

/-- The URL the image loop computes for an element: from the first attribute of
`possibleAttrs` that the element has with a non-empty value. -/
def candidateURL (s : Node) : Option String :=
  possibleAttrs.findSome? (fun attr =>
    match s.Attr attr with
    | some val => if val ≠ "" then some (imgURLOf attr val) else none
    | none => none)

/-- The test a computed URL has to pass to be recorded, apart from being new. -/
def accepted (imgURL : String) : Bool := decide (imgURL ≠ "") && isImageURL imgURL

/-- The URLs of a sequence of elements that pass the test, one per element that
has one, in the order of the elements. -/
def acceptedURLs (nodes : List Node) : List String :=
  (nodes.filterMap candidateURL).filter accepted

/-- The elements the image loop visits, in visiting order: the matches of every
selector of `imageSelectors`, selector after selector. -/
def visitedNodes (doc : Document) : List Node := imageSelectors.flatMap doc.find

/-- The first occurrences of the entries of a list, in the order of the list. -/
def firstOccurrences : List String → List String
  | [] => []
  | u :: rest => u :: (firstOccurrences rest).filter (fun v => decide (v ≠ u))

/-- The image list as the sentence "the first selector that yields a non-empty
result wins" describes it: the URLs of the first selector of `imageSelectors` that
yields an accepted URL, and nothing from the later selectors. -/
def firstSelectorImages (doc : Document) : List String :=
  match imageSelectors.find? (fun selector => decide (acceptedURLs (doc.find selector) ≠ [])) with
  | some selector => firstOccurrences (acceptedURLs (doc.find selector))
  | none => []

/-- The map `seenURLs` holds exactly the recorded URLs. -/
def ImageState.Consistent (st : ImageState) : Prop :=
  ∀ u, st.seenURLs u = true ↔ u ∈ st.imageURLs

/-- What follows the `j`-th paragraph tag (counted from 1) according to the
specification: the image `imageURLs[j / 5]` when `j` is a multiple of 5 and the
list has that image, and nothing otherwise. -/
def specAfterParagraph (imageURLs : List String) (j : Nat) : List HtmlWrite :=
  match imageURLs[j / 5]? with
  | some url => if j % 5 = 0 then [HtmlWrite.inlineImage url] else []
  | none => []

/-- The paragraph tags for the paragraphs `ps`, the first of which is paragraph
number `j + 1`, each followed by what the specification puts after it. -/
def specBody (imageURLs : List String) (j : Nat) (ps : List String) : List HtmlWrite :=
  (ps.enumFrom (j + 1)).flatMap
    (fun jp => HtmlWrite.paragraph jp.2 :: specAfterParagraph imageURLs jp.1)

/-! ## The fixed texts of the generated document -/

/-- The text of the document head before the title. -/
def headText1 : String := "
<!DOCTYPE html>
<html>
<head>
    <meta charset=\"UTF-8\">
    <meta name=\"viewport\" content=\"width=device-width, initial-scale=1.0\">
    <title>"

/-- The text of the document head between the title and its repetition in the heading. -/
def headText2 : String := "</title>
    <style>
        body \x7b
            font-family: -apple-system, BlinkMacSystemFont, \"Segoe UI\", Roboto, \"Helvetica Neue\", Arial, sans-serif;
            line-height: 1.6;
            color: #333;
            max-width: 800px;
            margin: 0 auto;
            padding: 20px;
            background-color: #f8f8f8;
        \x7d
        .article \x7b
            background: white;
            border-radius: 8px;
            box-shadow: 0 2px 8px rgba(0, 0, 0, 0.1);
            padding: 30px;
            margin-bottom: 20px;
        \x7d
        .title \x7b
            font-size: 24px;
            font-weight: bold;
            margin-bottom: 10px;
            color: #1a1a1a;
            text-align: center;
        \x7d
        .meta \x7b
            font-size: 14px;
            color: #888;
            margin-bottom: 20px;
            text-align: center;
        \x7d
        .content \x7b
            font-size: 16px;
            line-height: 1.8;
            color: #333;
        \x7d
        .content p \x7b
            margin-bottom: 16px;
            text-align: justify;
        \x7d
        .image-container \x7b
            margin: 20px 0;
            text-align: center;
        \x7d
        .image-container img \x7b
            max-width: 100%;
            height: auto;
            border-radius: 4px;
            box-shadow: 0 2px 4px rgba(0, 0, 0, 0.1);
        \x7d
        .copyright \x7b
            margin-top: 30px;
            padding-top: 20px;
            border-top: 1px solid #eee;
            font-size: 12px;
            color: #999;
            text-align: center;
        \x7d
        @media (max-width: 600px) \x7b
            body \x7b
                padding: 15px;
            \x7d
            .article \x7b
                padding: 20px;
            \x7d
            .title \x7b
                font-size: 20px;
            \x7d
        \x7d
    </style>
</head>
<body>
    <div class=\"article\">
        <h1 class=\"title\">"

/-- The text of the document head between the heading and the time. -/
def headText3 : String := "</h1>
        <div class=\"meta\">"

/-- The text of the document head after the time. -/
def headText4 : String := "</div>
        <div class=\"content\">"

/-- The text of an image block before the URL. -/
def imageBlockOpen : String := "
            <div class=\"image-container\">
                <img src=\""

/-- The text of the header image block after the URL. -/
def headerImageClose : String := "\" alt=\"头图\">
            </div>"

/-- The text of an image block of the paragraph loop after the URL. -/
def inlineImageClose : String := "\" alt=\"配图\">
            </div>"

/-- The text of the footer before the copyright line. -/
def footerText1 : String := "
        </div>
        <div class=\"copyright\">
            <p>本文内容来源于BBC中文网，如有侵权请联系必删</p>
            <p>"

/-- The text of the footer after the copyright line. -/
def footerText2 : String := "</p>
        </div>
    </div>
</body>
</html>"

/-- The bytes of the document head the specification asks for: the fixed texts
with the title, the title again and the time between them. -/
def specHead (title time : String) : List UInt8 :=
  utf8 headText1 ++ (utf8 title ++ (utf8 headText2 ++ (utf8 title ++
    (utf8 headText3 ++ (utf8 time ++ utf8 headText4)))))

/-- The bytes of the footer the specification asks for: the fixed texts around the
copyright line, which shows `year`. -/
def specFooter (year : List UInt8) : List UInt8 :=
  utf8 footerText1 ++ (utf8 "Copyright " ++ (year ++
    (utf8 " BBC. 保留所有权利。" ++ utf8 footerText2)))

/-! ## Counting image blocks in the bytes of a document -/

/-- The bytes of the text `<div class="image-container">`, which opens an image
block. -/
def imageContainerMarkup : List UInt8 := utf8 "<div class=\"image-container\">"

/-- The number of positions of `l` at which the block `sub` starts. -/
def countOccurrences (sub : List UInt8) : List UInt8 → Nat
  | [] => 0
  | b :: bs => (if sub.isPrefixOf (b :: bs) then 1 else 0) + countOccurrences sub bs

/-- Whether `sub` and `t` differ at a position that both have; `sub` is then no
prefix of `t`, whatever is appended to `t`. -/
def definiteMismatch : List UInt8 → List UInt8 → Bool
  | a :: l, b :: t => a != b || definiteMismatch l t
  | _, _ => false

/-- Whether, at every position of `text`, it is settled inside `text` that `sub`
starts there or not, whatever follows `text`. -/
def settledInside (sub : List UInt8) : List UInt8 → Bool
  | [] => true
  | b :: bs => (sub.isPrefixOf (b :: bs) || definiteMismatch sub (b :: bs)) && settledInside sub bs

/-- Whether no non-empty end part of `rest` can go on into `text`. -/
def blocksContinuation : List UInt8 → List UInt8 → Bool
  | [] , _ => true
  | a :: l, text => definiteMismatch (a :: l) text && blocksContinuation l text

/-- A write whose variable parts do not contain the image-container markup. -/
def HtmlWrite.Clean : HtmlWrite → Prop
  | .head title time =>
    countOccurrences imageContainerMarkup (utf8 title) = 0 ∧
      countOccurrences imageContainerMarkup (utf8 time) = 0
  | .headerImage url => countOccurrences imageContainerMarkup (utf8 url) = 0
  | .paragraph p => countOccurrences imageContainerMarkup (utf8 p) = 0
  | .inlineImage url => countOccurrences imageContainerMarkup (utf8 url) = 0
  | .footer year => countOccurrences imageContainerMarkup year = 0

/-- The header image block the specification asks for: an image-container
division with the URL and the alt text `头图`. -/
def specHeaderImageBlock (url : String) : String :=
  "
            <div class=\"image-container\">
                <img src=\"" ++ url ++ "\" alt=\"头图\">
            </div>"

/-- The image block the specification asks for between paragraphs: an
image-container division with the URL and the alt text `配图`. -/
def specInlineImageBlock (url : String) : String :=
  "
            <div class=\"image-container\">
                <img src=\"" ++ url ++ "\" alt=\"配图\">
            </div>"

/-- The paragraph tag the specification asks for. -/
def specParagraphTag (p : String) : String := "<p>" ++ p ++ "</p>"

/-- The bytes of the document body according to the specification: for the
paragraphs `ps`, the first of which is paragraph number `j + 1`, each paragraph
tag, followed by the image block of `imageURLs[k]` after paragraph number `5k`
when the list has that image. -/
def specBodyBytes (imageURLs : List String) (j : Nat) (ps : List String) : List UInt8 :=
  (ps.enumFrom (j + 1)).flatMap (fun jp =>
    utf8 (specParagraphTag jp.2) ++
      match imageURLs[jp.1 / 5]? with
      | some url => if jp.1 % 5 = 0 then utf8 (specInlineImageBlock url) else []
      | none => [])

/-! ## The normalisation of image URLs the specification asks for -/

/-- The rewriting of a URL to an absolute one: `//host/x` gets the scheme
`https:`, a path gets the site `https://www.bbc.com`. -/
def specNormalise (value : String) : String :=
  if strings.HasPrefix value "//" then "https:" ++ value
  else if !strings.HasPrefix value "http" && !strings.HasPrefix value "/" then
    "https://www.bbc.com/" ++ value
  else if strings.HasPrefix value "/" then "https://www.bbc.com" ++ value
  else value

/-- The URL an attribute supplies: the first URL of a `srcset`, the value of any
other attribute. -/
def suppliedURL (attr val : String) : String :=
  if attr = "srcset" then
    match strings.Split val ',' with
    | [] => ""
    | part0 :: _ => (strings.Split (strings.TrimSpace part0) ' ').headD ""
  else val

/-- The normalised URL of an element according to the specification: the URL
supplied by the first attribute of `possibleAttrs` with a non-empty value,
rewritten to an absolute one whichever attribute that is. -/
def specNormalisedURL (s : Node) : Option String :=
  possibleAttrs.findSome? (fun attr =>
    match s.Attr attr with
    | some val => if val ≠ "" then some (specNormalise (suppliedURL attr val)) else none
    | none => none)

/-- The image list the specification asks for: the first occurrences, in visiting
order, of the normalised URLs that pass the extension filter. -/
def specImageList (doc : Document) : List String :=
  firstOccurrences (((visitedNodes doc).filterMap specNormalisedURL).filter accepted)

/-! ## Example pages -/

/-- A page with a headline, two paragraphs and two pictures; the first picture is
matched by two of the image selectors. -/
def examplePage : Document where
  find := fun selector =>
    if selector = "article h1" then [⟨" 頭條新聞 ", []⟩]
    else if selector = ".article__body-content img" then
      [⟨"", [("src", "https://ichef.bbci.co.uk/news/a.jpg")]⟩]
    else if selector = "article img" then
      [⟨"", [("src", "https://ichef.bbci.co.uk/news/a.jpg")]⟩,
        ⟨"", [("alt", "map"), ("src", "//ichef.bbci.co.uk/news/b.png")]⟩]
    else if selector = ".article__body-content p" then [⟨"first", []⟩, ⟨"  ", []⟩, ⟨" second\n", []⟩]
    else if selector = ".article__body p" then [⟨"other", []⟩]
    else []
  findIn := fun _ _ => []

/-- A page on which no selector matches anything. -/
def emptyPage : Document where
  find := fun _ => []
  findIn := fun _ _ => []

/-- A page whose only picture has a `srcset` attribute with root-relative URLs. -/
def srcsetPage : Document where
  find := fun selector =>
    if selector = "article img" then [⟨"", [("srcset", "/news/a.jpg 1x, /news/b.jpg 2x")]⟩]
    else if selector = "article h1" then [⟨"Title", []⟩]
    else []
  findIn := fun _ _ => []

/-- A converter that succeeds and changes nothing. -/
def idConvert (s : String) : Except String String := .ok s

/-- A page with the same picture twice: once with a protocol-relative `srcset`,
once with the same protocol-relative `src`. -/
def srcsetTwicePage : Document where
  find := fun selector =>
    if selector = "article img" then
      [⟨"", [("srcset", "//x.test/a.jpg")]⟩, ⟨"", [("src", "//x.test/a.jpg")]⟩]
    else if selector = "article h1" then [⟨"Title", []⟩]
    else []
  findIn := fun _ _ => []

/-! ## Facts about the string functions -/

theorem String.eq_empty_iff_data (s : String) : s = "" ↔ s.data = [] := by
  constructor
  · intro h; subst h; rfl
  · intro h; exact String.ext h

theorem strings.trimChars_eq_rdropWhile (l : List Char) :
    strings.trimChars l = (l.dropWhile unicode.IsSpace).rdropWhile unicode.IsSpace := rfl

/-- Trimming leaves nothing exactly when every character is white space. -/
theorem strings.trimChars_eq_nil_iff (l : List Char) :
    strings.trimChars l = [] ↔ ∀ c ∈ l, unicode.IsSpace c = true := by
  rw [strings.trimChars_eq_rdropWhile, List.rdropWhile_eq_nil_iff]
  constructor
  · intro h
    by_cases hd : l.dropWhile unicode.IsSpace = []
    · exact List.dropWhile_eq_nil_iff.mp hd
    · have h1 := List.head_dropWhile_not unicode.IsSpace l hd
      have h2 := h _ (List.head_mem hd)
      simp [h2] at h1
  · intro h c hc
    exact h c (List.dropWhile_subset _ hc)

/-- A non-empty trimmed text starts with a character that is not white space. -/
theorem strings.trimChars_head (l : List Char) (h : strings.trimChars l ≠ []) :
    ∃ c cs, strings.trimChars l = c :: cs ∧ unicode.IsSpace c = false := by
  have hpre : strings.trimChars l <+: l.dropWhile unicode.IsSpace := by
    rw [strings.trimChars_eq_rdropWhile]; exact List.rdropWhile_prefix _ _
  obtain ⟨t, ht⟩ := hpre
  cases hl : strings.trimChars l with
  | nil => exact absurd hl h
  | cons c cs =>
    refine ⟨c, cs, rfl, ?_⟩
    rw [hl] at ht
    have hd : l.dropWhile unicode.IsSpace ≠ [] := by rw [← ht]; simp
    have h1 := List.head_dropWhile_not unicode.IsSpace l hd
    have h2 : (l.dropWhile unicode.IsSpace).head hd = c := by
      simp [← ht]
    rw [h2] at h1
    exact h1

/-- A text whose first character is not white space is not blank. -/
theorem strings.trimChars_cons_ne_nil (c : Char) (cs : List Char)
    (hc : unicode.IsSpace c = false) : strings.trimChars (c :: cs) ≠ [] := by
  intro h
  have := (strings.trimChars_eq_nil_iff _).mp h c (List.mem_cons_self _ _)
  simp [hc] at this

/-- Trimming a non-blank text gives a non-blank text. -/
theorem strings.trimChars_trimChars_ne_nil (l : List Char) (h : strings.trimChars l ≠ []) :
    strings.trimChars (strings.trimChars l) ≠ [] := by
  obtain ⟨c, cs, hl, hc⟩ := strings.trimChars_head l h
  rw [hl]
  exact strings.trimChars_cons_ne_nil c cs hc

theorem strings.TrimSpace_eq_empty_iff (s : String) :
    strings.TrimSpace s = "" ↔ ∀ c ∈ s.data, unicode.IsSpace c = true := by
  rw [String.eq_empty_iff_data]
  exact strings.trimChars_eq_nil_iff s.data

theorem strings.TrimSpace_ne_empty_iff (s : String) :
    strings.TrimSpace s ≠ "" ↔ ∃ c ∈ s.data, unicode.IsSpace c = false := by
  rw [Ne, strings.TrimSpace_eq_empty_iff]
  push_neg
  simp

theorem strings.TrimSpace_TrimSpace_ne_empty (s : String) (h : strings.TrimSpace s ≠ "") :
    strings.TrimSpace (strings.TrimSpace s) ≠ "" := by
  intro h2
  rw [String.eq_empty_iff_data] at h2
  apply strings.trimChars_trimChars_ne_nil s.data _ h2
  intro h3
  exact h (String.ext h3)

/-- A loop that appends `f p` for the elements `p` passing a test computes a
filter followed by a map. -/
theorem List.foldl_append_if {α β : Type} (P : α → Prop) [DecidablePred P] (f : α → β)
    (l : List α) (init : List β) :
    l.foldl (fun acc p => if P p then acc ++ [f p] else acc) init =
      init ++ (l.filter (fun p => decide (P p))).map f := by
  induction l generalizing init with
  | nil => simp
  | cons a l ih =>
    simp only [List.foldl_cons, ih]
    by_cases h : P a <;> simp [h, List.filter_cons]

/-! ## The paragraph lists of the handlers -/

theorem topHandler_filteredParagraphs_eq (content : String) :
    topHandler.filteredParagraphs content = (nonBlankLines content).map strings.TrimSpace := by
  unfold topHandler.filteredParagraphs nonBlankLines
  rw [List.foldl_append_if (fun p => strings.TrimSpace p ≠ "") strings.TrimSpace]
  simp

theorem newsHandler_filteredParagraphs_eq (content : String) :
    newsHandler.filteredParagraphs content = (nonBlankLines content).map strings.TrimSpace := by
  unfold newsHandler.filteredParagraphs nonBlankLines
  rw [List.foldl_append_if (fun p => strings.TrimSpace p ≠ "") strings.TrimSpace]
  simp

theorem contentHandler_filteredParagraphs_eq (content : String) :
    contentHandler.filteredParagraphs content = nonBlankLines content := by
  unfold contentHandler.filteredParagraphs nonBlankLines
  have h := List.foldl_append_if (fun p => strings.TrimSpace p ≠ "") (fun p : String => p)
    (strings.Split content '\n') []
  simpa using h

/-- C9: the paragraph list of each handler is the list of the non-blank lines of
the content, in order: trimmed in the `/api/news/top` and `/news` handlers, as
they are in the `/api/news/content` handler. No entry is empty or made of white
space only, and the content `A\n\nB\n` gives the two entries `A`, `B`. -/
theorem filteredParagraphs_spec (content : String) :
    (topHandler.filteredParagraphs content =
        ((strings.Split content '\n').filter
          (fun p => decide (strings.TrimSpace p ≠ ""))).map strings.TrimSpace ∧
      newsHandler.filteredParagraphs content =
        ((strings.Split content '\n').filter
          (fun p => decide (strings.TrimSpace p ≠ ""))).map strings.TrimSpace ∧
      contentHandler.filteredParagraphs content =
        (strings.Split content '\n').filter (fun p => decide (strings.TrimSpace p ≠ ""))) ∧
    ((∀ p ∈ topHandler.filteredParagraphs content,
        p ≠ "" ∧ ∃ c ∈ p.data, unicode.IsSpace c = false) ∧
      (∀ p ∈ newsHandler.filteredParagraphs content,
        p ≠ "" ∧ ∃ c ∈ p.data, unicode.IsSpace c = false) ∧
      (∀ p ∈ contentHandler.filteredParagraphs content,
        p ≠ "" ∧ ∃ c ∈ p.data, unicode.IsSpace c = false)) ∧
    (topHandler.filteredParagraphs "A\n\nB\n" = ["A", "B"] ∧
      newsHandler.filteredParagraphs "A\n\nB\n" = ["A", "B"] ∧
      contentHandler.filteredParagraphs "A\n\nB\n" = ["A", "B"]) := by
  have key : ∀ p : String, (∃ c ∈ p.data, unicode.IsSpace c = false) →
      p ≠ "" ∧ ∃ c ∈ p.data, unicode.IsSpace c = false := by
    intro p hp
    refine ⟨?_, hp⟩
    intro h
    subst h
    obtain ⟨c, hc, _⟩ := hp
    simp at hc
  have trimmed : ∀ p ∈ (nonBlankLines content).map strings.TrimSpace,
      p ≠ "" ∧ ∃ c ∈ p.data, unicode.IsSpace c = false := by
    intro p hp
    obtain ⟨q, hq, rfl⟩ := List.mem_map.mp hp
    have hq2 : strings.TrimSpace q ≠ "" := by
      have := (List.mem_filter.mp hq).2
      simpa using this
    exact key _ ((strings.TrimSpace_ne_empty_iff _).mp
      (strings.TrimSpace_TrimSpace_ne_empty q hq2))
  refine ⟨⟨?_, ?_, ?_⟩, ⟨?_, ?_, ?_⟩, ?_, ?_, ?_⟩
  · exact topHandler_filteredParagraphs_eq content
  · exact newsHandler_filteredParagraphs_eq content
  · exact contentHandler_filteredParagraphs_eq content
  · rw [topHandler_filteredParagraphs_eq]; exact trimmed
  · rw [newsHandler_filteredParagraphs_eq]; exact trimmed
  · rw [contentHandler_filteredParagraphs_eq]
    intro p hp
    have hq2 : strings.TrimSpace p ≠ "" := by
      have := (List.mem_filter.mp hp).2
      simpa using this
    exact key _ ((strings.TrimSpace_ne_empty_iff _).mp hq2)
  · decide
  · decide
  · decide

/-! ## The content built by `getNewsContent` -/

theorem paragraphEach_foldl (setFound : Bool) (nodes : List Node) (st : ContentState) :
    nodes.foldl (paragraphEach setFound) st =
      { content := ⟨st.content.writes ++ (paragraphTexts nodes).map (fun text => text ++ "\n")⟩,
        paragraphCount := st.paragraphCount + (paragraphTexts nodes).length,
        contentFound := (setFound && !(paragraphTexts nodes).isEmpty) || st.contentFound } := by
  induction nodes generalizing st with
  | nil => cases st; simp [paragraphTexts]
  | cons s nodes ih =>
    rw [List.foldl_cons, ih]
    by_cases h : strings.TrimSpace s.text = ""
    · have hp : paragraphTexts (s :: nodes) = paragraphTexts nodes := by
        simp [paragraphTexts, List.filter_cons, h]
      simp [paragraphEach, h, hp]
    · have hp : paragraphTexts (s :: nodes) = strings.TrimSpace s.text :: paragraphTexts nodes := by
        simp [paragraphTexts, List.filter_cons, h]
      simp only [paragraphEach, hp, strings.Builder.WriteString]
      simp [h]
      constructor
      · omega
      · cases setFound <;> simp

theorem contentLoop_eq (doc : Document) (selectors : List String) (st : ContentState)
    (hst : st.contentFound = false) :
    contentLoop doc st selectors =
      match selectors.find? (fun selector => decide (paragraphTexts (doc.find selector) ≠ [])) with
      | some selector =>
        { content := ⟨st.content.writes ++
            (paragraphTexts (doc.find selector)).map (fun text => text ++ "\n")⟩,
          paragraphCount := st.paragraphCount + (paragraphTexts (doc.find selector)).length,
          contentFound := true }
      | none => st := by
  induction selectors generalizing st with
  | nil => simp [contentLoop]
  | cons selector rest ih =>
    simp only [contentLoop, paragraphEach_foldl, List.find?_cons]
    by_cases h : paragraphTexts (doc.find selector) = []
    · obtain ⟨⟨writes⟩, count, found⟩ := st
      simp only at hst
      subst hst
      have ih1 := ih ⟨⟨writes⟩, count, false⟩ rfl
      simp only [h]
      simpa using ih1
    · have hne : (paragraphTexts (doc.find selector)).isEmpty = false := by
        cases hp : paragraphTexts (doc.find selector) with
        | nil => exact absurd hp h
        | cons _ _ => rfl
      simp [h, hst, hne]

/-- The writes of the content loop and its fallback, from any starting content. -/
theorem extractBody_writes (doc : Document) (content : strings.Builder) :
    (extractBody doc content).content.writes =
      content.writes ++ (specBodyParagraphs doc).map (fun text => text ++ "\n") := by
  unfold extractBody specBodyParagraphs
  rw [contentLoop_eq doc contentSelectors ⟨content, 0, false⟩ rfl]
  cases hfind : contentSelectors.find?
      (fun selector => decide (paragraphTexts (doc.find selector) ≠ [])) with
  | some selector => simp
  | none => simp [paragraphEach_foldl]

/-- C4: the body paragraphs written to the content are the trimmed non-empty
texts, in document order, of the matches of the first selector of
`contentSelectors` that has a non-empty paragraph, and later selectors add
nothing; when no selector has one, they are the trimmed non-empty texts of the
`p` elements inside `article` elements. -/
theorem extractBody_paragraphs (doc : Document) (content : strings.Builder) :
    (extractBody doc content).content.writes =
        content.writes ++ (specBodyParagraphs doc).map (fun text => text ++ "\n") ∧
      (∀ selector ∈ contentSelectors,
        paragraphTexts (doc.find selector) ≠ [] →
        (∀ earlier ∈ contentSelectors.takeWhile (fun e => decide (e ≠ selector)),
          paragraphTexts (doc.find earlier) = []) →
        specBodyParagraphs doc = paragraphTexts (doc.find selector)) ∧
      ((∀ selector ∈ contentSelectors, paragraphTexts (doc.find selector) = []) →
        specBodyParagraphs doc = paragraphTexts (doc.findIn "article" "p")) := by
  refine ⟨extractBody_writes doc content, ?_, ?_⟩
  · intro selector hsel hne hearlier
    unfold specBodyParagraphs
    have key : ∀ l : List String, selector ∈ l →
        (∀ earlier ∈ l.takeWhile (fun e => decide (e ≠ selector)),
          paragraphTexts (doc.find earlier) = []) →
        l.find? (fun s => decide (paragraphTexts (doc.find s) ≠ [])) = some selector := by
      intro l
      induction l with
      | nil => intro h; simp at h
      | cons a l ih =>
        intro hmem hall
        by_cases ha : a = selector
        · subst ha
          simp [List.find?_cons, hne]
        · have hmem2 : selector ∈ l := by
            rcases List.mem_cons.mp hmem with h | h
            · exact absurd h.symm ha
            · exact h
          have htw : (a :: l).takeWhile (fun e => decide (e ≠ selector)) =
              a :: l.takeWhile (fun e => decide (e ≠ selector)) := by
            simp [List.takeWhile_cons, ha]
          rw [htw] at hall
          have h0 : paragraphTexts (doc.find a) = [] := hall a (List.mem_cons_self _ _)
          have := ih hmem2 (fun e he => hall e (List.mem_cons_of_mem _ he))
          rw [List.find?_cons]
          simp only [h0, ne_eq, not_true_eq_false, decide_False]
          exact this
    rw [key contentSelectors hsel hearlier]
  · intro hall
    unfold specBodyParagraphs
    have : contentSelectors.find?
        (fun selector => decide (paragraphTexts (doc.find selector) ≠ [])) = none := by
      rw [List.find?_eq_none]
      intro selector hsel
      simp [hall selector hsel]
    rw [this]

theorem titleLoop_writes (doc : Document) (content : strings.Builder) (selectors : List String) :
    (titleLoop doc content selectors).writes =
      content.writes ++
        match titleOf doc selectors with
        | some title => [title ++ "\n\n"]
        | none => [] := by
  induction selectors with
  | nil => simp [titleLoop, titleOf]
  | cons selector rest ih =>
    by_cases h : strings.TrimSpace (firstText (doc.find selector)) = ""
    · have : titleOf doc (selector :: rest) = titleOf doc rest := by
        simp [titleOf, List.find?_cons, h]
      simp only [titleLoop, h, this]
      simpa using ih
    · have : titleOf doc (selector :: rest) = some (strings.TrimSpace (firstText (doc.find selector))) := by
        simp [titleOf, List.find?_cons, h]
      simp [titleLoop, h, this, strings.Builder.WriteString]

theorem titleOf_eq_none_iff (doc : Document) (selectors : List String) :
    titleOf doc selectors = none ↔
      ∀ selector ∈ selectors, strings.TrimSpace (firstText (doc.find selector)) = "" := by
  simp [titleOf, List.find?_eq_none]

theorem paragraphTexts_eq_nil_iff (nodes : List Node) :
    paragraphTexts nodes = [] ↔ ∀ s ∈ nodes, strings.TrimSpace s.text = "" := by
  simp [paragraphTexts, List.filter_eq_nil_iff]

theorem specBodyParagraphs_eq_nil_iff (doc : Document) :
    specBodyParagraphs doc = [] ↔
      (∀ selector ∈ contentSelectors, paragraphTexts (doc.find selector) = []) ∧
        paragraphTexts (doc.findIn "article" "p") = [] := by
  unfold specBodyParagraphs
  cases hfind : contentSelectors.find?
      (fun selector => decide (paragraphTexts (doc.find selector) ≠ [])) with
  | some selector =>
    have h1 := List.find?_some hfind
    have h2 := List.mem_of_find?_eq_some hfind
    have h3 : paragraphTexts (doc.find selector) ≠ [] := by simpa using h1
    constructor
    · intro h; exact absurd h h3
    · intro h; exact h.1 selector h2
  | none =>
    have h1 := List.find?_eq_none.mp hfind
    constructor
    · intro h
      refine ⟨?_, h⟩
      intro selector hs
      simpa using h1 selector hs
    · intro h; exact h.2

/-- The text handed to the converter: the title line, when a title was found,
followed by the body paragraphs. -/
theorem rawContent_writes (doc : Document) :
    (extractBody doc (titleLoop doc strings.Builder.empty titleSelectors)).content.writes =
      (match titleOf doc titleSelectors with
        | some title => [title ++ "\n\n"]
        | none => []) ++ (specBodyParagraphs doc).map (fun text => text ++ "\n") := by
  rw [extractBody_writes, titleLoop_writes]
  simp [strings.Builder.empty]

/-! ## When `getNewsContent` finds no content -/

theorem strings.Builder.String_eq_empty_iff (b : strings.Builder) :
    b.String = "" ↔ ∀ w ∈ b.writes, w = "" := by
  rw [String.eq_empty_iff_data]
  simp only [strings.Builder.String, List.flatten_eq_nil_iff, List.mem_map,
    forall_exists_index, and_imp, forall_apply_eq_imp_iff₂]
  constructor
  · intro h w hw; exact (String.eq_empty_iff_data w).mpr (h w hw)
  · intro h w hw; exact (String.eq_empty_iff_data w).mp (h w hw)

theorem String.append_newline_ne_empty (s t : String) (ht : t ≠ "") : s ++ t ≠ "" := by
  intro h
  rw [String.eq_empty_iff_data, String.data_append] at h
  have := (List.append_eq_nil.mp h).2
  exact ht ((String.eq_empty_iff_data t).mpr this)

theorem rawContent_eq_empty_iff (doc : Document) :
    (extractBody doc (titleLoop doc strings.Builder.empty titleSelectors)).content.String = "" ↔
      titleOf doc titleSelectors = none ∧ specBodyParagraphs doc = [] := by
  rw [strings.Builder.String_eq_empty_iff, rawContent_writes]
  constructor
  · intro h
    cases ht : titleOf doc titleSelectors with
    | some title =>
      rw [ht] at h
      have := h (title ++ "\n\n") (by simp)
      exact absurd this (String.append_newline_ne_empty _ _ (by decide))
    | none =>
      refine ⟨rfl, ?_⟩
      cases hb : specBodyParagraphs doc with
      | nil => rfl
      | cons text rest =>
        rw [hb] at h
        have := h (text ++ "\n") (by simp)
        exact absurd this (String.append_newline_ne_empty _ _ (by decide))
  · rintro ⟨h1, h2⟩ w hw
    rw [h1, h2] at hw
    simp at hw

/-- C5: with a converter that succeeds and returns an empty text exactly for an
empty text, `getNewsContent` on a parsed page returns the error `无法提取文章内容`
if and only if no title selector gives a non-blank text, no selector of
`contentSelectors` gives a non-blank paragraph, and the generic fallback over the
`p` elements of `article` elements gives none either. -/
theorem getNewsContent_no_content_iff (t2s : String → Except String String) (doc : Document)
    (hconv : ∀ s, ∃ r, t2s s = .ok r ∧ (r = "" ↔ s = "")) :
    getNewsContent t2s doc = .error "无法提取文章内容" ↔
      (∀ selector ∈ titleSelectors, strings.TrimSpace (firstText (doc.find selector)) = "") ∧
      (∀ selector ∈ contentSelectors, ∀ s ∈ doc.find selector, strings.TrimSpace s.text = "") ∧
      (∀ s ∈ doc.findIn "article" "p", strings.TrimSpace s.text = "") := by
  have hraw := rawContent_eq_empty_iff doc
  rw [titleOf_eq_none_iff, specBodyParagraphs_eq_nil_iff] at hraw
  simp only [paragraphTexts_eq_nil_iff] at hraw
  obtain ⟨r, hr, hre⟩ :=
    hconv (extractBody doc (titleLoop doc strings.Builder.empty titleSelectors)).content.String
  rw [← hraw, ← hre]
  unfold getNewsContent
  simp only [hr]
  by_cases h : r = "" <;> simp [h]

/-- A witness for `getNewsContent_no_content_iff`: the identity converter on a page
where nothing matches. -/
theorem getNewsContent_no_content_iff_witness :
    (∀ s, ∃ r, idConvert s = .ok r ∧ (r = "" ↔ s = "")) ∧
      (getNewsContent idConvert emptyPage = .error "无法提取文章内容" ↔
        (∀ selector ∈ titleSelectors,
          strings.TrimSpace (firstText (emptyPage.find selector)) = "") ∧
        (∀ selector ∈ contentSelectors, ∀ s ∈ emptyPage.find selector,
          strings.TrimSpace s.text = "") ∧
        (∀ s ∈ emptyPage.findIn "article" "p", strings.TrimSpace s.text = "")) :=
  ⟨fun s => ⟨s, rfl, Iff.rfl⟩,
    getNewsContent_no_content_iff idConvert emptyPage (fun s => ⟨s, rfl, Iff.rfl⟩)⟩

/-! ## The title chosen by the `/api/news/content` handler -/

theorem titleOf_some_head (doc : Document) (selectors : List String) (title : String)
    (h : titleOf doc selectors = some title) :
    ∃ c cs, title.data = c :: cs ∧ unicode.IsSpace c = false := by
  unfold titleOf at h
  have h1 := List.find?_some h
  have h2 := List.mem_of_find?_eq_some h
  obtain ⟨selector, _, rfl⟩ := List.mem_map.mp h2
  have h3 : strings.TrimSpace (firstText (doc.find selector)) ≠ "" := by simpa using h1
  apply strings.trimChars_head
  intro h4
  exact h3 (String.ext h4)

theorem paragraphTexts_head (nodes : List Node) (text : String) (h : text ∈ paragraphTexts nodes) :
    ∃ c cs, text.data = c :: cs ∧ unicode.IsSpace c = false := by
  unfold paragraphTexts at h
  obtain ⟨h1, h2⟩ := List.mem_filter.mp h
  obtain ⟨s, _, rfl⟩ := List.mem_map.mp h1
  have h3 : strings.TrimSpace s.text ≠ "" := by simpa using h2
  apply strings.trimChars_head
  intro h4
  exact h3 (String.ext h4)

theorem specBodyParagraphs_head (doc : Document) (text : String)
    (h : text ∈ specBodyParagraphs doc) :
    ∃ c cs, text.data = c :: cs ∧ unicode.IsSpace c = false := by
  unfold specBodyParagraphs at h
  split at h <;> exact paragraphTexts_head _ _ h

/-- A non-empty content starts with a character that is not white space. -/
theorem rawContent_head (doc : Document)
    (h : (extractBody doc (titleLoop doc strings.Builder.empty titleSelectors)).content.String ≠ "") :
    ∃ c cs, (extractBody doc (titleLoop doc strings.Builder.empty
      titleSelectors)).content.String.data = c :: cs ∧ unicode.IsSpace c = false := by
  have hne := mt (rawContent_eq_empty_iff doc).mpr h
  simp only [strings.Builder.String, rawContent_writes]
  cases ht : titleOf doc titleSelectors with
  | some title =>
    obtain ⟨c, cs, hc, hsp⟩ := titleOf_some_head doc _ _ ht
    refine ⟨c, ?_, ?_, hsp⟩
    · exact cs ++ "\n\n".data ++
        (((specBodyParagraphs doc).map (fun text => text ++ "\n")).map String.data).flatten
    · simp [String.data_append, hc]
  | none =>
    cases hb : specBodyParagraphs doc with
    | nil => exact absurd ⟨ht, hb⟩ hne
    | cons text rest =>
      obtain ⟨c, cs, hc, hsp⟩ := specBodyParagraphs_head doc text (by rw [hb]; simp)
      refine ⟨c, ?_, ?_, hsp⟩
      · exact cs ++ "\n".data ++
          ((rest.map (fun text => text ++ "\n")).map String.data).flatten
      · simp [String.data_append, hc]

theorem unicode.IsSpace_newline : unicode.IsSpace '\n' = true := by decide

theorem strings.splitChars_cons_of_ne (sep c : Char) (cs : List Char) (h : c ≠ sep) :
    ∃ p ps, strings.splitChars sep (c :: cs) = (c :: p) :: ps := by
  simp only [strings.splitChars, h, if_false]
  cases hs : strings.splitChars sep cs with
  | nil => exact ⟨[], [], rfl⟩
  | cons p ps => exact ⟨p, ps, rfl⟩

/-- C10: when `getNewsContent` succeeds, with a converter that keeps the kind of
every character (newline, white space, other), the content has a non-blank line,
so `filteredParagraphs` of the `/api/news/content` handler is not empty,
`filteredParagraphs[0]` is in bounds, and it is the first non-blank line of the
content. -/
theorem contentHandler_title_in_bounds (t2s : String → Except String String) (doc : Document)
    (content : String) (imageURLs : List String)
    (hconv : ∀ s r, t2s s = .ok r → List.Forall₂ sameKind s.data r.data)
    (hok : getNewsContent t2s doc = .ok (content, imageURLs)) :
    (∃ p ∈ strings.Split content '\n', strings.TrimSpace p ≠ "") ∧
      contentHandler.filteredParagraphs content ≠ [] ∧
      ∃ title, contentHandler.title content = some title ∧
        (strings.Split content '\n').find? (fun p => decide (strings.TrimSpace p ≠ "")) =
          some title := by
  -- the converter was applied to the raw content and gave `content`
  unfold getNewsContent at hok
  simp only at hok
  cases hr : t2s (extractBody doc (titleLoop doc strings.Builder.empty
      titleSelectors)).content.String with
  | error e => rw [hr] at hok; simp at hok
  | ok r =>
    rw [hr] at hok
    simp only at hok
    by_cases hre : r = ""
    · simp [hre] at hok
    · simp only [hre, if_false, Except.ok.injEq, Prod.mk.injEq] at hok
      obtain ⟨rfl, _⟩ := hok
      have hkind := hconv _ _ hr
      have hrawne : (extractBody doc (titleLoop doc strings.Builder.empty
          titleSelectors)).content.String ≠ "" := by
        intro h0
        rw [h0] at hkind
        have : r.data = [] := by
          cases hd : r.data with
          | nil => rfl
          | cons a l => rw [hd] at hkind; cases hkind
        exact hre (String.ext this)
      obtain ⟨c, cs, hc, hsp⟩ := rawContent_head doc hrawne
      rw [hc] at hkind
      obtain ⟨c1, cs1, hk, _, hrd⟩ := List.forall₂_cons_left_iff.mp hkind
      have hsp1 : unicode.IsSpace c1 = false := by rw [← hk.2]; exact hsp
      have hnl : c1 ≠ '\n' := by
        intro h; rw [h, unicode.IsSpace_newline] at hsp1; cases hsp1
      obtain ⟨p, ps, hsplit⟩ := strings.splitChars_cons_of_ne '\n' c1 cs1 hnl
      have hS : strings.Split r '\n' = String.mk (c1 :: p) :: ps.map String.mk := by
        simp [strings.Split, hrd, hsplit]
      have hfirst : strings.TrimSpace (String.mk (c1 :: p)) ≠ "" := by
        intro h
        rw [String.eq_empty_iff_data] at h
        exact strings.trimChars_cons_ne_nil c1 p hsp1 h
      have hfp : contentHandler.filteredParagraphs r =
          String.mk (c1 :: p) :: (ps.map String.mk).filter
            (fun p => decide (strings.TrimSpace p ≠ "")) := by
        rw [contentHandler_filteredParagraphs_eq, nonBlankLines, hS, List.filter_cons]
        simp [hfirst]
      refine ⟨⟨String.mk (c1 :: p), ?_, hfirst⟩, ?_, String.mk (c1 :: p), ?_, ?_⟩
      · rw [hS]; simp
      · rw [hfp]; simp
      · simp [contentHandler.title, hfp]
      · rw [hS, List.find?_cons]; simp [hfirst]

/-- A witness for `contentHandler_title_in_bounds`: the identity converter on the
example page. -/
theorem contentHandler_title_in_bounds_witness :
    getNewsContent idConvert examplePage =
        .ok ("頭條新聞\n\nfirst\nsecond\n",
          ["https://ichef.bbci.co.uk/news/a.jpg", "https://ichef.bbci.co.uk/news/b.png"]) ∧
      contentHandler.title "頭條新聞\n\nfirst\nsecond\n" = some "頭條新聞" ∧
      contentHandler.filteredParagraphs "頭條新聞\n\nfirst\nsecond\n" ≠ [] :=
  have h := contentHandler_title_in_bounds idConvert examplePage
    "頭條新聞\n\nfirst\nsecond\n"
    ["https://ichef.bbci.co.uk/news/a.jpg", "https://ichef.bbci.co.uk/news/b.png"]
    (fun s r hsr => by
      have : s = r := by simpa [idConvert] using hsr
      subst this
      exact List.forall₂_same.mpr (fun _ _ => ⟨Iff.rfl, rfl⟩))
    rfl
  ⟨rfl, by decide, h.2.1⟩

/-! ## The image list of `getNewsContent` -/

theorem attrLoop_eq (s : Node) (st : ImageState) (attrs : List String) :
    attrLoop s st attrs =
      match attrs.findSome? (fun attr =>
          match s.Attr attr with
          | some val => if val ≠ "" then some (imgURLOf attr val) else none
          | none => none) with
      | some imgURL => recordImage st imgURL
      | none => st := by
  induction attrs with
  | nil => rfl
  | cons attr rest ih =>
    simp only [attrLoop, List.findSome?_cons]
    cases hA : s.Attr attr with
    | none => simpa using ih
    | some val =>
      by_cases hv : val = ""
      · simpa [hv] using ih
      · simp [hv]

theorem imageEach_eq (st : ImageState) (s : Node) :
    imageEach st s =
      match candidateURL s with
      | some imgURL => recordImage st imgURL
      | none => st := by
  unfold imageEach candidateURL
  exact attrLoop_eq s st possibleAttrs

theorem imageLoop_eq_foldl (doc : Document) (st : ImageState) (selectors : List String) :
    imageLoop doc st selectors = (selectors.flatMap doc.find).foldl imageEach st := by
  unfold imageLoop
  induction selectors generalizing st with
  | nil => rfl
  | cons selector rest ih => simp [List.flatMap_cons, List.foldl_append, ih]

theorem ImageState.init_consistent : ImageState.init.Consistent := by
  intro u; simp [ImageState.init]

theorem recordImage_of_not_accepted (st : ImageState) (u : String) (h : accepted u = false) :
    recordImage st u = st := by
  unfold recordImage
  by_cases h1 : u = ""
  · simp [h1]
  · have h2 : isImageURL u = false := by simpa [accepted, h1] using h
    simp [h2]

theorem recordImage_of_seen (st : ImageState) (u : String) (h : st.seenURLs u = true) :
    recordImage st u = st := by
  unfold recordImage
  simp [h]

theorem recordImage_of_new (st : ImageState) (u : String) (ha : accepted u = true)
    (h : st.seenURLs u = false) :
    (recordImage st u).imageURLs = st.imageURLs ++ [u] ∧
      ∀ k, (recordImage st u).seenURLs k = if k = u then true else st.seenURLs k := by
  have h1 : u ≠ "" := by
    intro h0; simp [accepted, h0] at ha
  have h2 : isImageURL u = true := by simpa [accepted, h1] using ha
  unfold recordImage
  simp [h1, h, h2]

theorem acceptedURLs_cons (s : Node) (nodes : List Node) :
    acceptedURLs (s :: nodes) =
      match candidateURL s with
      | some u => if accepted u = true then u :: acceptedURLs nodes else acceptedURLs nodes
      | none => acceptedURLs nodes := by
  unfold acceptedURLs
  cases h : candidateURL s with
  | none => simp [List.filterMap_cons, h]
  | some u =>
    by_cases ha : accepted u = true
    · simp [List.filterMap_cons, h, List.filter_cons, ha]
    · simp [List.filterMap_cons, h, List.filter_cons, ha]

/-- The image loop over a sequence of elements, from a consistent state: the URLs
added are the first occurrences of the accepted URLs that were not recorded
before. -/
theorem imageEach_foldl (nodes : List Node) (st : ImageState) (hst : st.Consistent) :
    (nodes.foldl imageEach st).imageURLs =
        st.imageURLs ++
          (firstOccurrences (acceptedURLs nodes)).filter (fun u => decide (u ∉ st.imageURLs)) ∧
      (nodes.foldl imageEach st).Consistent := by
  induction nodes generalizing st with
  | nil => simp [acceptedURLs, firstOccurrences, hst]
  | cons s nodes ih =>
    rw [List.foldl_cons, imageEach_eq, acceptedURLs_cons]
    cases hc : candidateURL s with
    | none => exact ih st hst
    | some u =>
      by_cases ha : accepted u = true
      · simp only [ha, if_true]
        by_cases hseen : st.seenURLs u = true
        · rw [recordImage_of_seen st u hseen]
          have hmem : u ∈ st.imageURLs := (hst u).mp hseen
          refine ⟨?_, (ih st hst).2⟩
          rw [(ih st hst).1]
          congr 1
          simp only [firstOccurrences, List.filter_cons, hmem, not_true_eq_false, decide_False,
            Bool.false_eq_true, if_false, List.filter_filter]
          apply List.filter_congr
          intro v _
          by_cases hv : v = u
          · subst hv; simp [hmem]
          · simp [hv]
        · have hseen2 : st.seenURLs u = false := by simpa using hseen
          have hnmem : u ∉ st.imageURLs := fun hm => hseen ((hst u).mpr hm)
          obtain ⟨hi, hs⟩ := recordImage_of_new st u ha hseen2
          have hcons : (recordImage st u).Consistent := by
            intro k
            rw [hs k, hi]
            by_cases hk : k = u
            · simp [hk]
            · simp [hk, hst k]
          obtain ⟨ih1, ih2⟩ := ih (recordImage st u) hcons
          refine ⟨?_, ih2⟩
          rw [ih1, hi]
          simp only [firstOccurrences, List.filter_cons, hnmem, not_false_eq_true, decide_True,
            if_true, List.filter_filter, List.append_assoc, List.singleton_append]
          congr 2
          apply List.filter_congr
          intro v _
          by_cases hv : v = u
          · subst hv; simp
          · simp [hv]
      · have ha2 : accepted u = false := by simpa using ha
        simp only [ha2, Bool.false_eq_true, if_false]
        rw [recordImage_of_not_accepted st u ha2]
        exact ih st hst

theorem imageLoop_imageURLs (doc : Document) :
    (imageLoop doc ImageState.init imageSelectors).imageURLs =
      firstOccurrences (acceptedURLs (visitedNodes doc)) := by
  rw [imageLoop_eq_foldl, (imageEach_foldl _ _ ImageState.init_consistent).1]
  simp [ImageState.init, visitedNodes]

theorem mem_firstOccurrences (l : List String) (u : String) :
    u ∈ firstOccurrences l ↔ u ∈ l := by
  induction l with
  | nil => simp [firstOccurrences]
  | cons a l ih =>
    simp only [firstOccurrences, List.mem_cons, List.mem_filter, ih]
    by_cases h : u = a <;> simp [h]

theorem nodup_firstOccurrences (l : List String) : (firstOccurrences l).Nodup := by
  induction l with
  | nil => simp [firstOccurrences]
  | cons a l ih =>
    simp only [firstOccurrences, List.nodup_cons]
    exact ⟨by simp [List.mem_filter], ih.filter _⟩

theorem getNewsContent_ok_images (t2s : String → Except String String) (doc : Document)
    (content : String) (imageURLs : List String)
    (hok : getNewsContent t2s doc = .ok (content, imageURLs)) :
    imageURLs = (imageLoop doc ImageState.init imageSelectors).imageURLs := by
  unfold getNewsContent at hok
  simp only at hok
  split at hok
  · cases hok
  · split at hok
    · cases hok
    · simp only [Except.ok.injEq, Prod.mk.injEq] at hok
      exact hok.2.symm

theorem mem_acceptedURLs (nodes : List Node) (u : String) :
    u ∈ acceptedURLs nodes ↔ ∃ s ∈ nodes, candidateURL s = some u ∧ accepted u = true := by
  simp [acceptedURLs, List.mem_filter, List.mem_filterMap]
  tauto

/-- The returned image list has no string twice, and it is the sequence of first
occurrences, in visiting order, of the URLs the code computes for the visited
elements and accepts. -/
theorem getNewsContent_images_computed (t2s : String → Except String String)
    (doc : Document) (content : String) (imageURLs : List String)
    (hok : getNewsContent t2s doc = .ok (content, imageURLs)) :
    imageURLs.Nodup ∧
      imageURLs = firstOccurrences (acceptedURLs (imageSelectors.flatMap doc.find)) := by
  rw [getNewsContent_ok_images t2s doc content imageURLs hok, imageLoop_imageURLs]
  exact ⟨nodup_firstOccurrences _, rfl⟩

/-- A witness for `getNewsContent_images_computed`: the example page, where
the two selectors that match visit the first picture twice. -/
theorem getNewsContent_images_computed_witness :
    acceptedURLs (imageSelectors.flatMap examplePage.find) =
        ["https://ichef.bbci.co.uk/news/a.jpg", "https://ichef.bbci.co.uk/news/a.jpg",
          "https://ichef.bbci.co.uk/news/b.png"] ∧
      ["https://ichef.bbci.co.uk/news/a.jpg", "https://ichef.bbci.co.uk/news/b.png"].Nodup ∧
      ["https://ichef.bbci.co.uk/news/a.jpg", "https://ichef.bbci.co.uk/news/b.png"] =
        firstOccurrences (acceptedURLs (imageSelectors.flatMap examplePage.find)) :=
  ⟨by decide,
    getNewsContent_images_computed idConvert examplePage "頭條新聞\n\nfirst\nsecond\n"
      ["https://ichef.bbci.co.uk/news/a.jpg", "https://ichef.bbci.co.uk/news/b.png"] rfl⟩

/-- C1, as the code has it: every selector of `imageSelectors` contributes. A URL
is in the returned image list exactly when it is the accepted URL of an element
matched by some selector of the list, whatever the earlier selectors yielded. -/
theorem getNewsContent_images_from_all_selectors (t2s : String → Except String String)
    (doc : Document) (content : String) (imageURLs : List String)
    (hok : getNewsContent t2s doc = .ok (content, imageURLs)) (u : String) :
    u ∈ imageURLs ↔
      ∃ selector ∈ imageSelectors, ∃ s ∈ doc.find selector,
        candidateURL s = some u ∧ accepted u = true := by
  rw [getNewsContent_ok_images t2s doc content imageURLs hok, imageLoop_imageURLs,
    mem_firstOccurrences, mem_acceptedURLs]
  simp only [visitedNodes, List.mem_flatMap]
  constructor
  · rintro ⟨s, ⟨selector, hsel, hs⟩, h⟩
    exact ⟨selector, hsel, s, hs, h⟩
  · rintro ⟨selector, hsel, s, hs, h⟩
    exact ⟨s, ⟨selector, hsel, hs⟩, h⟩

/-- A witness for `getNewsContent_images_from_all_selectors`: on the example page
the second picture comes from the selector `article img`, after
`.article__body-content img` has already yielded the first one. -/
theorem getNewsContent_images_from_all_selectors_witness :
    "https://ichef.bbci.co.uk/news/b.png" ∈
        ["https://ichef.bbci.co.uk/news/a.jpg", "https://ichef.bbci.co.uk/news/b.png"] ↔
      ∃ selector ∈ imageSelectors, ∃ s ∈ examplePage.find selector,
        candidateURL s = some "https://ichef.bbci.co.uk/news/b.png" ∧
          accepted "https://ichef.bbci.co.uk/news/b.png" = true :=
  getNewsContent_images_from_all_selectors idConvert examplePage "頭條新聞\n\nfirst\nsecond\n"
    ["https://ichef.bbci.co.uk/news/a.jpg", "https://ichef.bbci.co.uk/news/b.png"] rfl
    "https://ichef.bbci.co.uk/news/b.png"

/-- C1, as stated, fails on the example page: the first selector of the list that
yields a URL is `.article__body-content img`, with the first picture only, and
the returned list also has the second picture, found by the later selector
`article img`. -/
theorem getNewsContent_images_not_first_selector_only :
    getNewsContent idConvert examplePage =
        .ok ("頭條新聞\n\nfirst\nsecond\n",
          ["https://ichef.bbci.co.uk/news/a.jpg", "https://ichef.bbci.co.uk/news/b.png"]) ∧
      firstSelectorImages examplePage = ["https://ichef.bbci.co.uk/news/a.jpg"] ∧
      (imageLoop examplePage ImageState.init imageSelectors).imageURLs ≠
        firstSelectorImages examplePage :=
  ⟨rfl, by decide, by decide⟩

/-- C2 on the page with a `srcset` picture: a root-relative URL taken from `srcset`
is returned as it is, with its leading `/`. -/
theorem getNewsContent_srcset_not_normalised :
    getNewsContent idConvert srcsetPage = .ok ("Title\n\n", ["/news/a.jpg"]) ∧
      imgURLOf "srcset" "/news/a.jpg 1x, /news/b.jpg 2x" = "/news/a.jpg" ∧
      imgURLOf "src" "/news/a.jpg" = "https://www.bbc.com/news/a.jpg" :=
  ⟨rfl, by decide, by decide⟩

/-- C3 on the page with the same picture twice. The `srcset` branch does not
rewrite the protocol-relative URL, so the returned list has the picture twice,
once as `//x.test/a.jpg` and once as `https://x.test/a.jpg`; the first occurrences
of the normalised URLs are the single URL `https://x.test/a.jpg`. -/
theorem getNewsContent_images_not_normalised_first_occurrences :
    getNewsContent idConvert srcsetTwicePage =
        .ok ("Title\n\n", ["//x.test/a.jpg", "https://x.test/a.jpg"]) ∧
      (visitedNodes srcsetTwicePage).filterMap specNormalisedURL =
        ["https://x.test/a.jpg", "https://x.test/a.jpg"] ∧
      specImageList srcsetTwicePage = ["https://x.test/a.jpg"] ∧
      (imageLoop srcsetTwicePage ImageState.init imageSelectors).imageURLs ≠
        specImageList srcsetTwicePage :=
  ⟨rfl, by decide, by decide, by decide⟩

/-! ## The documents written by `generateHTML` -/

theorem sliceTo_of_le (s : String) (n : Nat) (h : n ≤ len s) :
    sliceTo s n = some ((utf8 s).take n) := by
  simp [sliceTo, h]

theorem sliceTo_of_lt (s : String) (n : Nat) (h : len s < n) : sliceTo s n = none := by
  simp [sliceTo, Nat.not_le.mpr h]

/-- One round of the paragraph loop on a non-blank line. -/
theorem generateHTML.step_of_nonblank (imageURLs : List String) (st : RenderState) (p : String)
    (hp : strings.TrimSpace p ≠ "") :
    generateHTML.step imageURLs st p =
      match (if st.paragraphCount + 1 ≥ 5 ∧ st.paragraphCount + 1 ≤ 7
          then imageURLs[st.imageIndex]? else none) with
      | some url =>
        { html := st.html ++ [HtmlWrite.paragraph (strings.TrimSpace p), HtmlWrite.inlineImage url],
          imageIndex := st.imageIndex + 1, paragraphCount := 0 }
      | none =>
        { html := st.html ++ [HtmlWrite.paragraph (strings.TrimSpace p)],
          imageIndex := st.imageIndex, paragraphCount := st.paragraphCount + 1 } := by
  unfold generateHTML.step
  simp only [hp, if_false]
  by_cases h : st.imageIndex < imageURLs.length ∧ st.paragraphCount + 1 ≥ 5 ∧
      st.paragraphCount + 1 ≤ 7
  · rw [dif_pos h, if_pos h.2, List.getElem?_eq_getElem h.1]
    simp
  · rw [dif_neg h]
    by_cases h2 : st.paragraphCount + 1 ≥ 5 ∧ st.paragraphCount + 1 ≤ 7
    · have h3 : imageURLs.length ≤ st.imageIndex := by
        by_contra hlt
        exact h ⟨Nat.lt_of_not_le hlt, h2⟩
      rw [if_pos h2, List.getElem?_eq_none h3]
    · rw [if_neg h2]

theorem generateHTML.step_of_blank (imageURLs : List String) (st : RenderState) (p : String)
    (hp : strings.TrimSpace p = "") : generateHTML.step imageURLs st p = st := by
  unfold generateHTML.step
  simp [hp]

/-- The paragraph loop without images: one paragraph tag per non-blank line. -/
theorem generateHTML.foldl_no_image (imageURLs : List String) (lines : List String)
    (st : RenderState) (hi : imageURLs.length ≤ st.imageIndex) :
    (lines.foldl (generateHTML.step imageURLs) st).html =
      st.html ++ ((lines.filter (fun p => decide (strings.TrimSpace p ≠ ""))).map
        strings.TrimSpace).map HtmlWrite.paragraph := by
  induction lines generalizing st with
  | nil => simp
  | cons p lines ih =>
    rw [List.foldl_cons]
    by_cases hp : strings.TrimSpace p = ""
    · rw [generateHTML.step_of_blank _ _ _ hp, ih st hi]
      simp [List.filter_cons, hp]
    · rw [generateHTML.step_of_nonblank _ _ _ hp, List.getElem?_eq_none hi]
      simp only [ite_self]
      rw [ih]
      · simp [List.filter_cons, hp]
      · exact hi

theorem List.drop_one_take_succ {α : Type} (l : List α) (i : Nat) (h1 : 1 ≤ i)
    (hlt : i < l.length) :
    (l.take (i + 1)).drop 1 = (l.take i).drop 1 ++ [l[i]] := by
  rw [List.take_succ, List.getElem?_eq_getElem hlt]
  have : 1 ≤ (l.take i).length := by rw [List.length_take]; omega
  simp only [Option.toList]
  exact List.drop_append_of_le_length this

/-- The paragraph loop when there is at least one image: the state after `j`
paragraphs determines where the later images go. -/
theorem generateHTML.foldl_with_images (imageURLs : List String) (url0 : String)
    (hm : 1 ≤ imageURLs.length) (lines : List String) (st : RenderState) (j : Nat)
    (hi : st.imageIndex = 1 + min (j / 5) (imageURLs.length - 1))
    (hc : st.paragraphCount = j - 5 * min (j / 5) (imageURLs.length - 1))
    (himg : st.html.filter HtmlWrite.isImage =
      HtmlWrite.headerImage url0 ::
        ((imageURLs.take st.imageIndex).drop 1).map HtmlWrite.inlineImage) :
    (lines.foldl (generateHTML.step imageURLs) st).html =
        st.html ++ specBody imageURLs j
          ((lines.filter (fun p => decide (strings.TrimSpace p ≠ ""))).map strings.TrimSpace) ∧
      (lines.foldl (generateHTML.step imageURLs) st).imageIndex =
        1 + min ((j + (lines.filter (fun p => decide (strings.TrimSpace p ≠ ""))).length) / 5)
          (imageURLs.length - 1) ∧
      (lines.foldl (generateHTML.step imageURLs) st).html.filter HtmlWrite.isImage =
        HtmlWrite.headerImage url0 ::
          ((imageURLs.take (lines.foldl (generateHTML.step imageURLs) st).imageIndex).drop 1).map
            HtmlWrite.inlineImage := by
  induction lines generalizing st j with
  | nil => simp [specBody, hi, himg]
  | cons p lines ih =>
    rw [List.foldl_cons]
    by_cases hp : strings.TrimSpace p = ""
    · rw [generateHTML.step_of_blank _ _ _ hp]
      have := ih st j hi hc himg
      simpa [List.filter_cons, hp] using this
    · rw [generateHTML.step_of_nonblank _ _ _ hp]
      have hfilter : (p :: lines).filter (fun p => decide (strings.TrimSpace p ≠ "")) =
          p :: lines.filter (fun p => decide (strings.TrimSpace p ≠ "")) := by
        simp [List.filter_cons, hp]
      rw [hfilter]
      simp only [List.map_cons, List.length_cons, specBody, List.enumFrom_cons, List.flatMap_cons]
      by_cases hcond : (j + 1) % 5 = 0 ∧ (j + 1) / 5 < imageURLs.length
      · -- the image `imageURLs[(j + 1) / 5]` is written after this paragraph
        have hidx : st.imageIndex = (j + 1) / 5 := by omega
        have hcnt : st.paragraphCount + 1 ≥ 5 ∧ st.paragraphCount + 1 ≤ 7 := by omega
        have hlt : (j + 1) / 5 < imageURLs.length := hcond.2
        have hget : imageURLs[(j + 1) / 5]? = some imageURLs[(j + 1) / 5] :=
          List.getElem?_eq_getElem hlt
        rw [if_pos hcnt, hidx, hget]
        simp only
        have hafter : specAfterParagraph imageURLs (j + 1) =
            [HtmlWrite.inlineImage imageURLs[(j + 1) / 5]] := by
          simp [specAfterParagraph, hget, hcond.1]
        have hi2 : (j + 1) / 5 + 1 = 1 + min ((j + 1) / 5) (imageURLs.length - 1) := by omega
        have hc2 : 0 = (j + 1) - 5 * min ((j + 1) / 5) (imageURLs.length - 1) := by omega
        have himg2 : (st.html ++ [HtmlWrite.paragraph (strings.TrimSpace p),
              HtmlWrite.inlineImage imageURLs[(j + 1) / 5]]).filter HtmlWrite.isImage =
            HtmlWrite.headerImage url0 ::
              ((imageURLs.take ((j + 1) / 5 + 1)).drop 1).map HtmlWrite.inlineImage := by
          rw [List.filter_append, himg, hidx,
            List.drop_one_take_succ imageURLs ((j + 1) / 5) (by omega) hlt]
          simp [List.filter_cons, HtmlWrite.isImage]
        obtain ⟨r1, r2, r3⟩ := ih
          ⟨st.html ++ [HtmlWrite.paragraph (strings.TrimSpace p),
            HtmlWrite.inlineImage imageURLs[(j + 1) / 5]], (j + 1) / 5 + 1, 0⟩
          (j + 1) hi2 hc2 himg2
        refine ⟨?_, ?_, r3⟩
        · rw [r1, hafter]
          simp [specBody]
        · rw [r2]
          congr 2
          omega
      · -- no image is written after this paragraph
        have hnone : (if st.paragraphCount + 1 ≥ 5 ∧ st.paragraphCount + 1 ≤ 7
            then imageURLs[st.imageIndex]? else none) = none := by
          by_cases hcnt : st.paragraphCount + 1 ≥ 5 ∧ st.paragraphCount + 1 ≤ 7
          · rw [if_pos hcnt]
            apply List.getElem?_eq_none
            omega
          · rw [if_neg hcnt]
        rw [hnone]
        simp only
        have hafter : specAfterParagraph imageURLs (j + 1) = [] := by
          unfold specAfterParagraph
          cases hg : imageURLs[(j + 1) / 5]? with
          | none => rfl
          | some url =>
            have hlt : (j + 1) / 5 < imageURLs.length := by
              by_contra hge
              rw [List.getElem?_eq_none (Nat.le_of_not_lt hge)] at hg
              cases hg
            have : ¬ (j + 1) % 5 = 0 := fun h0 => hcond ⟨h0, hlt⟩
            simp [this]
        have hi2 : st.imageIndex = 1 + min ((j + 1) / 5) (imageURLs.length - 1) := by omega
        have hc2 : st.paragraphCount + 1 =
            (j + 1) - 5 * min ((j + 1) / 5) (imageURLs.length - 1) := by omega
        have himg2 : (st.html ++ [HtmlWrite.paragraph (strings.TrimSpace p)]).filter
              HtmlWrite.isImage =
            HtmlWrite.headerImage url0 ::
              ((imageURLs.take st.imageIndex).drop 1).map HtmlWrite.inlineImage := by
          rw [List.filter_append, himg]
          simp [List.filter_cons, HtmlWrite.isImage]
        obtain ⟨r1, r2, r3⟩ := ih
          ⟨st.html ++ [HtmlWrite.paragraph (strings.TrimSpace p)], st.imageIndex,
            st.paragraphCount + 1⟩ (j + 1) hi2 hc2 himg2
        refine ⟨?_, ?_, r3⟩
        · rw [r1, hafter]
          simp [specBody]
        · rw [r2]
          congr 2
          omega

/-- The writes of `generateHTML` with at least one image: the head, the header
image, and then the paragraph tags of the non-blank lines, where the `5k`-th
paragraph tag is immediately followed by the image `imageURLs[k]` for every `k`
from 1 on with `k ≤ m - 1` and `5k ≤ n`, and no other image is written. When the
time string has at least 4 bytes the document is these writes followed by the
footer. -/
theorem generateHTML.writes_with_images (title time content : String) (imageURLs : List String)
    (hm : 1 ≤ imageURLs.length) :
    ((generateHTML.loop title time content imageURLs).html =
        HtmlWrite.head title time :: HtmlWrite.headerImage (imageURLs.get ⟨0, hm⟩) ::
          specBody imageURLs 0 ((nonBlankLines content).map strings.TrimSpace) ∧
      (generateHTML.loop title time content imageURLs).html.filter HtmlWrite.isImage =
        HtmlWrite.headerImage (imageURLs.get ⟨0, hm⟩) ::
          ((imageURLs.take
            (1 + min (imageURLs.length - 1) ((nonBlankLines content).length / 5))).drop 1).map
              HtmlWrite.inlineImage ∧
      ((generateHTML.loop title time content imageURLs).html.filter HtmlWrite.isImage).length =
        1 + min (imageURLs.length - 1) ((nonBlankLines content).length / 5)) ∧
    (4 ≤ len time →
      ∃ ws, generateHTML.writes title time content imageURLs = some ws ∧
        ws = HtmlWrite.head title time :: HtmlWrite.headerImage (imageURLs.get ⟨0, hm⟩) ::
          (specBody imageURLs 0 ((nonBlankLines content).map strings.TrimSpace) ++
            [HtmlWrite.footer ((utf8 time).take 4)]) ∧
        (ws.filter HtmlWrite.isImage).length =
          1 + min (imageURLs.length - 1) ((nonBlankLines content).length / 5)) := by
  obtain ⟨url0, rest, rfl⟩ : ∃ url0 rest, imageURLs = url0 :: rest := by
    cases imageURLs with
    | nil => simp at hm
    | cons a l => exact ⟨a, l, rfl⟩
  obtain ⟨r1, r2, r3⟩ := generateHTML.foldl_with_images (url0 :: rest) url0 hm
    (strings.Split content '\n')
    ⟨[HtmlWrite.head title time, HtmlWrite.headerImage url0], 1, 0⟩ 0
    (by simp) (by simp) (by simp [List.filter_cons, HtmlWrite.isImage])
  have hloop : generateHTML.loop title time content (url0 :: rest) =
      (strings.Split content '\n').foldl (generateHTML.step (url0 :: rest))
        ⟨[HtmlWrite.head title time, HtmlWrite.headerImage url0], 1, 0⟩ := rfl
  have hfilter : ∀ l : List HtmlWrite, (l ++ [HtmlWrite.footer ((utf8 time).take 4)]).filter
      HtmlWrite.isImage = l.filter HtmlWrite.isImage := by
    intro l; simp [List.filter_append, List.filter_cons, HtmlWrite.isImage]
  have hidx : (generateHTML.loop title time content (url0 :: rest)).imageIndex =
      1 + min ((url0 :: rest).length - 1) ((nonBlankLines content).length / 5) := by
    rw [hloop, r2, nonBlankLines]
    simp only [Nat.zero_add]
    rw [Nat.min_comm]
  have hhtml : (generateHTML.loop title time content (url0 :: rest)).html =
      HtmlWrite.head title time :: HtmlWrite.headerImage url0 ::
        specBody (url0 :: rest) 0 ((nonBlankLines content).map strings.TrimSpace) := by
    rw [hloop, r1]
    simp [nonBlankLines]
  have himgs : (generateHTML.loop title time content (url0 :: rest)).html.filter
        HtmlWrite.isImage =
      HtmlWrite.headerImage url0 :: (((url0 :: rest).take
        (1 + min ((url0 :: rest).length - 1) ((nonBlankLines content).length / 5))).drop 1).map
          HtmlWrite.inlineImage := by
    rw [← hidx, hloop]
    exact r3
  have hlen : ((generateHTML.loop title time content (url0 :: rest)).html.filter
      HtmlWrite.isImage).length =
        1 + min ((url0 :: rest).length - 1) ((nonBlankLines content).length / 5) := by
    rw [himgs]
    simp only [List.length_cons, List.length_map, List.length_drop, List.length_take]
    omega
  refine ⟨⟨hhtml, himgs, hlen⟩, fun ht => ?_⟩
  refine ⟨(generateHTML.loop title time content (url0 :: rest)).html ++
    [HtmlWrite.footer ((utf8 time).take 4)], ?_, ?_, ?_⟩
  · simp [generateHTML.writes, sliceTo_of_le time 4 ht]
  · rw [hhtml]
    simp
  · rw [hfilter, hlen]

/-- The writes of `generateHTML` for a time string of at least 4 bytes: with an
empty image list the head, one paragraph tag per non-blank line and the footer;
with a one-element list the header image comes between the head and the first
paragraph tag. -/
theorem generateHTML.writes_zero_or_one_image (title time content : String) (ht : 4 ≤ len time) :
    (generateHTML.writes title time content [] =
        some (HtmlWrite.head title time ::
          (((nonBlankLines content).map strings.TrimSpace).map HtmlWrite.paragraph ++
            [HtmlWrite.footer ((utf8 time).take 4)])) ∧
      ∀ ws, generateHTML.writes title time content [] = some ws →
        ws.filter HtmlWrite.isImage = []) ∧
    (∀ url : String,
      generateHTML.writes title time content [url] =
          some (HtmlWrite.head title time :: HtmlWrite.headerImage url ::
            (((nonBlankLines content).map strings.TrimSpace).map HtmlWrite.paragraph ++
              [HtmlWrite.footer ((utf8 time).take 4)])) ∧
        (∀ ws, generateHTML.writes title time content [url] = some ws →
          ws.filter HtmlWrite.isImage = [HtmlWrite.headerImage url]) ∧
        HtmlWrite.render (HtmlWrite.headerImage url) = utf8 ("
            <div class=\"image-container\">
                <img src=\"" ++ url ++ "\" alt=\"头图\">
            </div>")) := by
  have hpar : ∀ l : List String, (l.map HtmlWrite.paragraph).filter HtmlWrite.isImage = [] := by
    intro l
    induction l with
    | nil => rfl
    | cons a l ih => simp [List.filter_cons, HtmlWrite.isImage, ih]
  have h0 : generateHTML.writes title time content [] =
      some (HtmlWrite.head title time ::
        (((nonBlankLines content).map strings.TrimSpace).map HtmlWrite.paragraph ++
          [HtmlWrite.footer ((utf8 time).take 4)])) := by
    have := generateHTML.foldl_no_image [] (strings.Split content '\n')
      ⟨[HtmlWrite.head title time], 0, 0⟩ (by simp)
    simp only [generateHTML.writes, generateHTML.loop, generateHTML.start,
      sliceTo_of_le time 4 ht, this]
    simp [nonBlankLines]
  have h1 : ∀ url : String, generateHTML.writes title time content [url] =
      some (HtmlWrite.head title time :: HtmlWrite.headerImage url ::
        (((nonBlankLines content).map strings.TrimSpace).map HtmlWrite.paragraph ++
          [HtmlWrite.footer ((utf8 time).take 4)])) := by
    intro url
    have := generateHTML.foldl_no_image [url] (strings.Split content '\n')
      ⟨[HtmlWrite.head title time, HtmlWrite.headerImage url], 1, 0⟩ (by simp)
    simp only [generateHTML.writes, generateHTML.loop, generateHTML.start,
      sliceTo_of_le time 4 ht, this]
    simp [nonBlankLines]
  refine ⟨⟨h0, ?_⟩, fun url => ⟨h1 url, ?_, rfl⟩⟩
  · intro ws hws
    rw [h0] at hws
    cases hws
    simp [List.filter_cons, List.filter_append, HtmlWrite.isImage, hpar]
  · intro ws hws
    rw [h1 url] at hws
    cases hws
    simp [List.filter_cons, List.filter_append, HtmlWrite.isImage, hpar]

theorem generateHTML_panics_of_short_time (title time content : String)
    (imageURLs : List String) (ht : len time < 4) :
    generateHTML title time content imageURLs = none := by
  simp [generateHTML, generateHTML.writes, sliceTo_of_lt time 4 ht]

/-- With a time string of at least 4 bytes `generateHTML` returns a document, and
its last write is the footer with the first 4 bytes of the time string. -/
theorem generateHTML_returns_of_long_time (title time content : String)
    (imageURLs : List String) (ht : 4 ≤ len time) :
    ∃ ws, generateHTML.writes title time content imageURLs = some ws ∧
      ws.getLast? = some (HtmlWrite.footer ((utf8 time).take 4)) ∧
      (generateHTML title time content imageURLs).isSome = true := by
  refine ⟨(generateHTML.loop title time content imageURLs).html ++
    [HtmlWrite.footer ((utf8 time).take 4)], ?_, by simp, ?_⟩
  · simp [generateHTML.writes, sliceTo_of_le time 4 ht]
  · simp [generateHTML, generateHTML.writes, sliceTo_of_le time 4 ht]

/-- C6 at time strings the function can receive. For the empty time string (a
feed entry without a publication date, passed on by the `/api/news/top` handler)
and for a three-byte one, `time[:4]` panics and no document is returned. For a
time string starting with a Chinese character the year is the first 4 bytes,
which are not 4 characters. -/
theorem generateHTML_short_time_panics :
    generateHTML "标题" "" "正文" [] = none ∧
      generateHTML "标题" "202" "正文" ["https://ichef.bbci.co.uk/news/a.jpg"] = none ∧
      generateHTML.writes "标题" "年月日" "正文" [] =
        some [HtmlWrite.head "标题" "年月日", HtmlWrite.paragraph "正文",
          HtmlWrite.footer [229, 185, 180, 230]] :=
  ⟨by rfl, by rfl, by decide⟩

/-! ## Occurrences of a block of bytes -/

theorem countOccurrences_cons (M : List UInt8) (b : UInt8) (bs : List UInt8) :
    countOccurrences M (b :: bs) =
      (if M.isPrefixOf (b :: bs) then 1 else 0) + countOccurrences M bs := rfl

theorem countOccurrences_pos_iff (M l : List UInt8) (hM : M ≠ []) :
    0 < countOccurrences M l ↔ M <:+: l := by
  induction l with
  | nil =>
    simp only [countOccurrences, Nat.lt_irrefl, false_iff]
    intro h
    exact hM (List.infix_nil.mp h)
  | cons b bs ih =>
    rw [List.infix_cons_iff, ← ih, ← List.isPrefixOf_iff_prefix]
    simp only [countOccurrences]
    by_cases h : M.isPrefixOf (b :: bs) = true
    · simp [h]
    · simp [h]

theorem countOccurrences_eq_zero_iff (M l : List UInt8) (hM : M ≠ []) :
    countOccurrences M l = 0 ↔ ¬ M <:+: l := by
  rw [← countOccurrences_pos_iff M l hM]
  omega

/-- A block that is not in a list is in no part of it. -/
theorem countOccurrences_eq_zero_of_part (M l1 l2 : List UInt8) (hM : M ≠ [])
    (h12 : l1 <:+: l2) (h : countOccurrences M l2 = 0) : countOccurrences M l1 = 0 := by
  rw [countOccurrences_eq_zero_iff M _ hM] at h ⊢
  exact fun h1 => h (h1.trans h12)

theorem countOccurrences_eq_zero_of_short (M l : List UInt8) (h : l.length < M.length) :
    countOccurrences M l = 0 := by
  have hM : M ≠ [] := by
    intro h0; rw [h0] at h; simp at h
  rw [countOccurrences_eq_zero_iff M l hM]
  intro hin
  have := hin.length_le
  omega

theorem definiteMismatch_not_prefix (M t R : List UInt8) (h : definiteMismatch M t = true) :
    ¬ M <+: t ++ R := by
  induction M generalizing t with
  | nil => simp [definiteMismatch] at h
  | cons a l ih =>
    cases t with
    | nil => simp [definiteMismatch] at h
    | cons b t =>
      simp only [definiteMismatch, Bool.or_eq_true, bne_iff_ne, ne_eq] at h
      intro hp
      rw [List.cons_append, List.cons_prefix_cons] at hp
      rcases h with h | h
      · exact h hp.1
      · exact ih t h hp.2

/-- The occurrences that start inside a settled text do not depend on what
follows it. -/
theorem countOccurrences_append_of_settled (M P R : List UInt8)
    (h : settledInside M P = true) :
    countOccurrences M (P ++ R) = countOccurrences M P + countOccurrences M R := by
  induction P with
  | nil => simp [countOccurrences]
  | cons b bs ih =>
    simp only [settledInside, Bool.and_eq_true, Bool.or_eq_true] at h
    obtain ⟨h1, h2⟩ := h
    rw [List.cons_append, countOccurrences_cons, countOccurrences_cons, ih h2]
    rcases h1 with h1 | h1
    · have hp : M <+: b :: bs := List.isPrefixOf_iff_prefix.mp h1
      have hp2 : M.isPrefixOf (b :: (bs ++ R)) = true := by
        rw [List.isPrefixOf_iff_prefix, ← List.cons_append]
        exact hp.trans (List.prefix_append _ _)
      rw [if_pos h1, if_pos hp2]
      omega
    · have hn1 : ¬ M.isPrefixOf (b :: bs) = true := by
        rw [List.isPrefixOf_iff_prefix]
        have := definiteMismatch_not_prefix M (b :: bs) [] h1
        simpa using this
      have hn2 : ¬ M.isPrefixOf (b :: (bs ++ R)) = true := by
        rw [List.isPrefixOf_iff_prefix, ← List.cons_append]
        exact definiteMismatch_not_prefix M (b :: bs) R h1
      rw [if_neg hn1, if_neg hn2]
      omega

theorem blocksContinuation_suffix (Mt S M2 : List UInt8) (h : blocksContinuation Mt S = true)
    (hs : M2 <:+ Mt) (hne : M2 ≠ []) : definiteMismatch M2 S = true := by
  induction Mt with
  | nil =>
    exact absurd (List.suffix_nil.mp hs) hne
  | cons a l ih =>
    simp only [blocksContinuation, Bool.and_eq_true] at h
    rcases List.suffix_cons_iff.mp hs with h1 | h1
    · rw [h1]; exact h.1
    · exact ih h.2 h1

/-- No occurrence starts inside a part that does not contain the block when the
text after it blocks every continuation. -/
theorem countOccurrences_append_of_blocked (M A S R : List UInt8)
    (hA : countOccurrences M A = 0) (hS : blocksContinuation M.tail S = true) :
    countOccurrences M (A ++ (S ++ R)) = countOccurrences M (S ++ R) := by
  induction A with
  | nil => rfl
  | cons b bs ih =>
    rw [countOccurrences_cons] at hA
    have hbs : countOccurrences M bs = 0 := by omega
    have hnp : ¬ M.isPrefixOf (b :: bs) = true := by
      intro h; simp [h] at hA
    have hn : ¬ M.isPrefixOf (b :: (bs ++ (S ++ R))) = true := by
      rw [List.isPrefixOf_iff_prefix, ← List.cons_append]
      intro hp
      rcases List.prefix_or_prefix_of_prefix hp (List.prefix_append (b :: bs) (S ++ R)) with h | h
      · exact hnp (List.isPrefixOf_iff_prefix.mpr h)
      · obtain ⟨M2, hM2⟩ := h
        rw [← hM2] at hp
        have hp2 : M2 <+: S ++ R := (List.prefix_append_right_inj (b :: bs)).mp hp
        have hne : M2 ≠ [] := by
          intro h0
          rw [h0, List.append_nil] at hM2
          exact hnp (List.isPrefixOf_iff_prefix.mpr (by rw [hM2]))
        have hsuf : M2 <:+ M.tail := by
          rw [← hM2]
          exact ⟨bs, by simp⟩
        exact definiteMismatch_not_prefix M2 S R (blocksContinuation_suffix _ _ _ hS hsuf hne) hp2
    rw [List.cons_append, countOccurrences_cons, if_neg hn, ih hbs]
    omega

/-- A part free of the block, followed by a settled text that blocks every
continuation. -/
theorem countOccurrences_free_then_text (M A S R : List UInt8)
    (hA : countOccurrences M A = 0) (hb : blocksContinuation M.tail S = true)
    (hs : settledInside M S = true) :
    countOccurrences M (A ++ (S ++ R)) = countOccurrences M S + countOccurrences M R := by
  rw [countOccurrences_append_of_blocked M A S R hA hb, countOccurrences_append_of_settled M S R hs]

theorem imageContainerMarkup_ne_nil : imageContainerMarkup ≠ [] := by decide

theorem utf8_append (s t : String) : utf8 (s ++ t) = utf8 s ++ utf8 t := by
  simp [utf8, String.data_append, List.flatMap_append]

theorem utf8_part (s t : String) (h : s.data <:+: t.data) : utf8 s <:+: utf8 t := by
  obtain ⟨a, b, hab⟩ := h
  refine ⟨a.flatMap String.utf8EncodeChar, b.flatMap String.utf8EncodeChar, ?_⟩
  simp [utf8, ← hab, List.flatMap_append]

theorem strings.trimChars_part (l : List Char) : strings.trimChars l <:+: l := by
  rw [strings.trimChars_eq_rdropWhile]
  exact (List.rdropWhile_prefix _ _).isInfix.trans (List.dropWhile_suffix _).isInfix

theorem strings.splitChars_head_prefix (sep : Char) (l q : List Char) (qs : List (List Char))
    (hs : strings.splitChars sep l = q :: qs) : q <+: l := by
  induction l generalizing q qs with
  | nil =>
    simp only [strings.splitChars] at hs
    cases hs
    exact List.nil_prefix
  | cons d ds ihd =>
    simp only [strings.splitChars] at hs
    by_cases hd : d = sep
    · simp only [hd, if_true] at hs
      cases hs
      exact List.nil_prefix
    · simp only [hd, if_false] at hs
      cases hds : strings.splitChars sep ds with
      | nil =>
        rw [hds] at hs
        cases hs
        exact List.prefix_append [d] ds
      | cons q1 qs1 =>
        rw [hds] at hs
        simp only [List.cons.injEq] at hs
        rw [← hs.1]
        exact List.cons_prefix_cons.mpr ⟨rfl, ihd q1 qs1 hds⟩

theorem strings.splitChars_part (sep : Char) (l p : List Char)
    (hp : p ∈ strings.splitChars sep l) : p <:+: l := by
  induction l generalizing p with
  | nil =>
    simp only [strings.splitChars, List.mem_singleton] at hp
    rw [hp]
  | cons c cs ih =>
    cases hs : strings.splitChars sep (c :: cs) with
    | nil => rw [hs] at hp; simp at hp
    | cons q qs =>
      have hq := strings.splitChars_head_prefix sep (c :: cs) q qs hs
      rw [hs] at hp
      rcases List.mem_cons.mp hp with h | h
      · rw [h]; exact hq.isInfix
      · -- the later pieces are pieces of the tail
        have hmem : p ∈ strings.splitChars sep cs := by
          simp only [strings.splitChars] at hs
          by_cases hc : c = sep
          · simp only [hc, if_true] at hs
            cases hs
            exact h
          · simp only [hc, if_false] at hs
            cases hcs : strings.splitChars sep cs with
            | nil => rw [hcs] at hs; cases hs; simp at h
            | cons q1 qs1 =>
              rw [hcs] at hs
              cases hs
              exact List.mem_cons_of_mem _ h
        exact (ih p hmem).trans (List.suffix_cons _ _).isInfix

/-- A paragraph written by `generateHTML` is part of the content. -/
theorem paragraph_infix_content (content p : String)
    (hp : p ∈ (nonBlankLines content).map strings.TrimSpace) : p.data <:+: content.data := by
  obtain ⟨q, hq, rfl⟩ := List.mem_map.mp hp
  have hq1 : q ∈ strings.Split content '\n' := (List.mem_filter.mp hq).1
  obtain ⟨l, hl, rfl⟩ := List.mem_map.mp hq1
  exact (strings.trimChars_part l).trans (strings.splitChars_part '\n' content.data l hl)

/-! ## The fixed texts of the document and the image-container markup -/

theorem headText1_markup :
    settledInside imageContainerMarkup (utf8 headText1) = true ∧
      countOccurrences imageContainerMarkup (utf8 headText1) = 0 := by decide!

theorem headText2_markup :
    settledInside imageContainerMarkup (utf8 headText2) = true ∧
      blocksContinuation imageContainerMarkup.tail (utf8 headText2) = true ∧
      countOccurrences imageContainerMarkup (utf8 headText2) = 0 := by decide!

theorem headText3_markup :
    settledInside imageContainerMarkup (utf8 headText3) = true ∧
      blocksContinuation imageContainerMarkup.tail (utf8 headText3) = true ∧
      countOccurrences imageContainerMarkup (utf8 headText3) = 0 := by decide!

theorem headText4_markup :
    settledInside imageContainerMarkup (utf8 headText4) = true ∧
      blocksContinuation imageContainerMarkup.tail (utf8 headText4) = true ∧
      countOccurrences imageContainerMarkup (utf8 headText4) = 0 := by decide!

theorem imageBlockOpen_markup :
    settledInside imageContainerMarkup (utf8 imageBlockOpen) = true ∧
      countOccurrences imageContainerMarkup (utf8 imageBlockOpen) = 1 := by decide!

theorem headerImageClose_markup :
    settledInside imageContainerMarkup (utf8 headerImageClose) = true ∧
      blocksContinuation imageContainerMarkup.tail (utf8 headerImageClose) = true ∧
      countOccurrences imageContainerMarkup (utf8 headerImageClose) = 0 := by decide!

theorem inlineImageClose_markup :
    settledInside imageContainerMarkup (utf8 inlineImageClose) = true ∧
      blocksContinuation imageContainerMarkup.tail (utf8 inlineImageClose) = true ∧
      countOccurrences imageContainerMarkup (utf8 inlineImageClose) = 0 := by decide!

theorem paragraphOpen_markup :
    settledInside imageContainerMarkup (utf8 "<p>") = true ∧
      countOccurrences imageContainerMarkup (utf8 "<p>") = 0 := by decide!

theorem paragraphClose_markup :
    settledInside imageContainerMarkup (utf8 "</p>") = true ∧
      blocksContinuation imageContainerMarkup.tail (utf8 "</p>") = true ∧
      countOccurrences imageContainerMarkup (utf8 "</p>") = 0 := by decide!

theorem footerText1_markup :
    settledInside imageContainerMarkup (utf8 footerText1) = true ∧
      countOccurrences imageContainerMarkup (utf8 footerText1) = 0 := by decide!

theorem copyrightWord_markup :
    settledInside imageContainerMarkup (utf8 "Copyright ") = true ∧
      countOccurrences imageContainerMarkup (utf8 "Copyright ") = 0 := by decide!

theorem copyrightOwner_markup :
    settledInside imageContainerMarkup (utf8 " BBC. 保留所有权利。") = true ∧
      blocksContinuation imageContainerMarkup.tail (utf8 " BBC. 保留所有权利。") = true ∧
      countOccurrences imageContainerMarkup (utf8 " BBC. 保留所有权利。") = 0 := by decide!

theorem footerText2_markup :
    settledInside imageContainerMarkup (utf8 footerText2) = true ∧
      countOccurrences imageContainerMarkup (utf8 footerText2) = 0 := by decide!

/-! ## The bytes of each write -/

theorem HtmlWrite.render_head (title time : String) :
    HtmlWrite.render (.head title time) = specHead title time := by
  simp only [HtmlWrite.render, specHead, utf8_append, List.append_assoc]
  rfl

theorem HtmlWrite.render_headerImage (url : String) :
    HtmlWrite.render (.headerImage url) =
      utf8 imageBlockOpen ++ (utf8 url ++ utf8 headerImageClose) := by
  simp only [HtmlWrite.render, utf8_append, List.append_assoc]
  rfl

theorem HtmlWrite.render_inlineImage (url : String) :
    HtmlWrite.render (.inlineImage url) =
      utf8 imageBlockOpen ++ (utf8 url ++ utf8 inlineImageClose) := by
  simp only [HtmlWrite.render, utf8_append, List.append_assoc]
  rfl

theorem HtmlWrite.render_paragraph (p : String) :
    HtmlWrite.render (.paragraph p) = utf8 "<p>" ++ (utf8 p ++ utf8 "</p>") := by
  simp only [HtmlWrite.render, utf8_append, List.append_assoc]

theorem HtmlWrite.render_footer (year : List UInt8) :
    HtmlWrite.render (.footer year) = specFooter year := by
  simp only [HtmlWrite.render, specFooter, copyrightLine, List.append_assoc]
  rfl

/-- An image write adds one occurrence of the image-container markup to the
document, any other write adds none, when the variable parts of the write do not
contain the markup. -/
theorem countOccurrences_render_append (w : HtmlWrite) (hw : w.Clean) (R : List UInt8) :
    countOccurrences imageContainerMarkup (w.render ++ R) =
      (if w.isImage = true then 1 else 0) + countOccurrences imageContainerMarkup R := by
  cases w with
  | head title time =>
    obtain ⟨h1, h2⟩ := hw
    rw [HtmlWrite.render_head]
    simp only [specHead, List.append_assoc]
    rw [countOccurrences_append_of_settled _ _ _ headText1_markup.1,
      countOccurrences_free_then_text _ _ _ _ h1 headText2_markup.2.1 headText2_markup.1,
      countOccurrences_free_then_text _ _ _ _ h1 headText3_markup.2.1 headText3_markup.1,
      countOccurrences_free_then_text _ _ _ _ h2 headText4_markup.2.1 headText4_markup.1,
      headText1_markup.2, headText2_markup.2.2, headText3_markup.2.2, headText4_markup.2.2]
    simp [HtmlWrite.isImage]
  | headerImage url =>
    rw [HtmlWrite.render_headerImage]
    simp only [List.append_assoc]
    rw [countOccurrences_append_of_settled _ _ _ imageBlockOpen_markup.1,
      countOccurrences_free_then_text _ _ _ _ hw headerImageClose_markup.2.1
        headerImageClose_markup.1,
      imageBlockOpen_markup.2, headerImageClose_markup.2.2]
    simp [HtmlWrite.isImage]
  | paragraph p =>
    rw [HtmlWrite.render_paragraph]
    simp only [List.append_assoc]
    rw [countOccurrences_append_of_settled _ _ _ paragraphOpen_markup.1,
      countOccurrences_free_then_text _ _ _ _ hw paragraphClose_markup.2.1
        paragraphClose_markup.1,
      paragraphOpen_markup.2, paragraphClose_markup.2.2]
    simp [HtmlWrite.isImage]
  | inlineImage url =>
    rw [HtmlWrite.render_inlineImage]
    simp only [List.append_assoc]
    rw [countOccurrences_append_of_settled _ _ _ imageBlockOpen_markup.1,
      countOccurrences_free_then_text _ _ _ _ hw inlineImageClose_markup.2.1
        inlineImageClose_markup.1,
      imageBlockOpen_markup.2, inlineImageClose_markup.2.2]
    simp [HtmlWrite.isImage]
  | footer year =>
    rw [HtmlWrite.render_footer]
    simp only [specFooter, List.append_assoc]
    rw [countOccurrences_append_of_settled _ _ _ footerText1_markup.1,
      countOccurrences_append_of_settled _ _ _ copyrightWord_markup.1,
      countOccurrences_free_then_text _ _ _ _ hw copyrightOwner_markup.2.1
        copyrightOwner_markup.1,
      countOccurrences_append_of_settled _ _ _ footerText2_markup.1,
      footerText1_markup.2, copyrightWord_markup.2, copyrightOwner_markup.2.2,
      footerText2_markup.2]
    simp [HtmlWrite.isImage]

/-- The occurrences of the image-container markup in the bytes of a list of clean
writes are the image writes of the list. -/
theorem countOccurrences_render_flatten (ws : List HtmlWrite) (hws : ∀ w ∈ ws, w.Clean) :
    countOccurrences imageContainerMarkup (ws.map HtmlWrite.render).flatten =
      (ws.filter HtmlWrite.isImage).length := by
  induction ws with
  | nil => rfl
  | cons w ws ih =>
    rw [List.map_cons, List.flatten_cons,
      countOccurrences_render_append w (hws w (List.mem_cons_self _ _)),
      ih (fun v hv => hws v (List.mem_cons_of_mem _ hv)), List.filter_cons]
    by_cases h : w.isImage = true
    · simp [h]; omega
    · simp [h]

/-! ## Image blocks in the bytes returned by `generateHTML` -/

theorem imageContainerMarkup_length : imageContainerMarkup.length = 29 := by decide

theorem specBody_render (imageURLs : List String) (j : Nat) (ps : List String) :
    ((specBody imageURLs j ps).map HtmlWrite.render).flatten = specBodyBytes imageURLs j ps := by
  unfold specBody specBodyBytes
  induction ps generalizing j with
  | nil => rfl
  | cons p ps ih =>
    simp only [List.enumFrom_cons, List.flatMap_cons, List.map_append, List.flatten_append,
      List.map_cons, List.flatten_cons]
    rw [ih (j + 1)]
    congr 1
    have hp : HtmlWrite.render (.paragraph p) = utf8 (specParagraphTag p) := rfl
    rw [hp]
    congr 1
    unfold specAfterParagraph
    cases imageURLs[(j + 1) / 5]? with
    | none => rfl
    | some url =>
      by_cases h5 : (j + 1) % 5 = 0
      · simp only [h5, if_true, List.map_cons, List.map_nil, List.flatten_cons,
          List.flatten_nil, List.append_nil]
        rfl
      · simp only [h5, if_false, List.map_nil, List.flatten_nil]

theorem paragraphs_render (ps : List String) :
    ((ps.map HtmlWrite.paragraph).map HtmlWrite.render).flatten =
      ps.flatMap (fun p => utf8 (specParagraphTag p)) := by
  induction ps with
  | nil => rfl
  | cons p ps ih =>
    simp only [List.map_cons, List.flatten_cons, List.flatMap_cons, ih]
    rfl

theorem mem_specBody (imageURLs : List String) (j : Nat) (ps : List String) (w : HtmlWrite)
    (hw : w ∈ specBody imageURLs j ps) :
    (∃ p ∈ ps, w = HtmlWrite.paragraph p) ∨ (∃ url ∈ imageURLs, w = HtmlWrite.inlineImage url) := by
  unfold specBody at hw
  obtain ⟨jp, hjp, hmem⟩ := List.mem_flatMap.mp hw
  rcases List.mem_cons.mp hmem with h | h
  · left
    refine ⟨jp.2, ?_, h⟩
    have := List.mem_map_of_mem Prod.snd hjp
    simpa using this
  · right
    unfold specAfterParagraph at h
    cases hg : imageURLs[jp.1 / 5]? with
    | none => rw [hg] at h; simp at h
    | some url =>
      rw [hg] at h
      by_cases h5 : jp.1 % 5 = 0
      · simp only [h5, if_true, List.mem_singleton] at h
        exact ⟨url, List.getElem?_mem hg, h⟩
      · simp [h5] at h

/-- The paragraphs of a content without the markup do not contain it. -/
theorem paragraph_clean (content p : String)
    (hcontent : countOccurrences imageContainerMarkup (utf8 content) = 0)
    (hp : p ∈ (nonBlankLines content).map strings.TrimSpace) :
    countOccurrences imageContainerMarkup (utf8 p) = 0 :=
  countOccurrences_eq_zero_of_part _ _ _ imageContainerMarkup_ne_nil
    (utf8_part p content (paragraph_infix_content content p hp)) hcontent

theorem year_clean (time : String) :
    countOccurrences imageContainerMarkup ((utf8 time).take 4) = 0 := by
  apply countOccurrences_eq_zero_of_short
  rw [imageContainerMarkup_length, List.length_take]
  omega

/-- C7, for texts without the image-container markup and a time string of at
least 4 bytes: with `m ≥ 1` images and `n` non-blank lines `generateHTML` returns
the head, the header image block, then the paragraph tags where the `5k`-th tag
is immediately followed by the image block of `imageURLs[k]` for every `k` from 1
on with `k ≤ m - 1` and `5k ≤ n` and by nothing otherwise, then the footer; the
returned bytes contain the markup `<div class="image-container">` exactly
`1 + min (m - 1) (n / 5)` times. -/
theorem generateHTML_inline_images (title time content : String) (imageURLs : List String)
    (hm : 1 ≤ imageURLs.length) (ht : 4 ≤ len time)
    (htitle : countOccurrences imageContainerMarkup (utf8 title) = 0)
    (htime : countOccurrences imageContainerMarkup (utf8 time) = 0)
    (hcontent : countOccurrences imageContainerMarkup (utf8 content) = 0)
    (hurls : ∀ url ∈ imageURLs, countOccurrences imageContainerMarkup (utf8 url) = 0) :
    ∃ doc, generateHTML title time content imageURLs = some doc ∧
      doc = specHead title time ++
        (utf8 (specHeaderImageBlock (imageURLs.get ⟨0, hm⟩)) ++
          (specBodyBytes imageURLs 0 ((nonBlankLines content).map strings.TrimSpace) ++
            specFooter ((utf8 time).take 4))) ∧
      countOccurrences imageContainerMarkup doc =
        1 + min (imageURLs.length - 1) ((nonBlankLines content).length / 5) := by
  obtain ⟨ws, hws, hshape, hlen⟩ :=
    (generateHTML.writes_with_images title time content imageURLs hm).2 ht
  refine ⟨(ws.map HtmlWrite.render).flatten, ?_, ?_, ?_⟩
  · simp [generateHTML, hws]
  · rw [hshape]
    simp only [List.map_cons, List.map_append, List.flatten_cons, List.flatten_append,
      List.map_nil, List.flatten_nil, List.append_nil, specBody_render,
      HtmlWrite.render_head, HtmlWrite.render_footer]
    rfl
  · rw [countOccurrences_render_flatten ws, hlen]
    intro w hw
    rw [hshape] at hw
    rcases List.mem_cons.mp hw with h | hw
    · rw [h]; exact ⟨htitle, htime⟩
    rcases List.mem_cons.mp hw with h | hw
    · rw [h]; exact hurls _ (List.get_mem _ _ _)
    rcases List.mem_append.mp hw with hw | hw
    · rcases mem_specBody _ _ _ _ hw with ⟨p, hp, h⟩ | ⟨url, hurl, h⟩
      · rw [h]; exact paragraph_clean content p hcontent hp
      · rw [h]; exact hurls url hurl
    · rw [List.mem_singleton.mp hw]; exact year_clean time

/-- A witness for `generateHTML_inline_images`: eleven non-blank lines and four
images give three image blocks. -/
theorem generateHTML_inline_images_witness :
    ∃ doc, generateHTML "T" "2024年01月02日 15:04:05" "a\nb\nc\nd\ne\n\nf\ng\nh\ni\nj\nk"
        ["u0", "u1", "u2", "u3"] = some doc ∧
      countOccurrences imageContainerMarkup doc = 3 :=
  (generateHTML_inline_images "T" "2024年01月02日 15:04:05" "a\nb\nc\nd\ne\n\nf\ng\nh\ni\nj\nk"
    ["u0", "u1", "u2", "u3"] (by decide) (by decide) (by decide) (by decide) (by decide)
    (by decide)).elim
    (fun doc h => ⟨doc, h.1, h.2.2.trans (by decide)⟩)

/-- C7, as stated, fails when the content has the markup: one line and one image
should give `1 + min (1 - 1) (1 / 5) = 1` image block, and the returned bytes have
the markup twice, the second time inside the paragraph, which is written
unescaped. With a time string shorter than 4 bytes no document is returned. -/
theorem generateHTML_markup_in_content :
    (∃ doc, generateHTML "T" "2024" "<div class=\"image-container\">" ["u0"] = some doc ∧
        countOccurrences imageContainerMarkup doc = 2) ∧
      (nonBlankLines "<div class=\"image-container\">").length = 1 ∧
      1 + min (["u0"].length - 1) (1 / 5) = 1 ∧
      generateHTML "T" "202" "a\nb\nc\nd\ne" ["u0", "u1"] = none :=
  ⟨⟨_, rfl, by decide!⟩, by decide, by decide, by rfl⟩

/-- C8, for a title, a time string of at least 4 bytes, a content and a URL
without the image-container markup: with an empty image list `generateHTML`
returns the head, the paragraph tags and the footer, and the returned bytes do
not contain `<div class="image-container">`; with a one-element list it returns
the header image block, with that URL and the alt text `头图`, between the head
and the first paragraph tag, and the returned bytes contain the markup exactly
once, in that block and not from the first paragraph tag on. -/
theorem generateHTML_zero_or_one_image (title time content : String) (ht : 4 ≤ len time)
    (htitle : countOccurrences imageContainerMarkup (utf8 title) = 0)
    (htime : countOccurrences imageContainerMarkup (utf8 time) = 0)
    (hcontent : countOccurrences imageContainerMarkup (utf8 content) = 0) :
    (∃ doc, generateHTML title time content [] = some doc ∧
        doc = specHead title time ++
          (((nonBlankLines content).map strings.TrimSpace).flatMap
              (fun p => utf8 (specParagraphTag p)) ++
            specFooter ((utf8 time).take 4)) ∧
        countOccurrences imageContainerMarkup doc = 0) ∧
    ∀ url : String, countOccurrences imageContainerMarkup (utf8 url) = 0 →
      ∃ doc, generateHTML title time content [url] = some doc ∧
        doc = specHead title time ++
          (utf8 (specHeaderImageBlock url) ++
            (((nonBlankLines content).map strings.TrimSpace).flatMap
                (fun p => utf8 (specParagraphTag p)) ++
              specFooter ((utf8 time).take 4))) ∧
        countOccurrences imageContainerMarkup doc = 1 ∧
        countOccurrences imageContainerMarkup (utf8 (specHeaderImageBlock url)) = 1 ∧
        countOccurrences imageContainerMarkup
          (((nonBlankLines content).map strings.TrimSpace).flatMap
              (fun p => utf8 (specParagraphTag p)) ++
            specFooter ((utf8 time).take 4)) = 0 := by
  have hps : ∀ w ∈ ((nonBlankLines content).map strings.TrimSpace).map HtmlWrite.paragraph,
      w.Clean := by
    intro w hw
    obtain ⟨p, hp, rfl⟩ := List.mem_map.mp hw
    exact paragraph_clean content p hcontent hp
  have hpfilter : ∀ l : List String,
      (l.map HtmlWrite.paragraph).filter HtmlWrite.isImage = [] := by
    intro l
    induction l with
    | nil => rfl
    | cons a l ih => simp [List.filter_cons, HtmlWrite.isImage, ih]
  have htail : countOccurrences imageContainerMarkup
      (((nonBlankLines content).map strings.TrimSpace).flatMap
          (fun p => utf8 (specParagraphTag p)) ++
        specFooter ((utf8 time).take 4)) = 0 := by
    have h := countOccurrences_render_flatten
      (((nonBlankLines content).map strings.TrimSpace).map HtmlWrite.paragraph ++
        [HtmlWrite.footer ((utf8 time).take 4)])
      (by
        intro w hw
        rcases List.mem_append.mp hw with hw | hw
        · exact hps w hw
        · rw [List.mem_singleton.mp hw]; exact year_clean time)
    have e1 : ((((nonBlankLines content).map strings.TrimSpace).map HtmlWrite.paragraph ++
        [HtmlWrite.footer ((utf8 time).take 4)]).map HtmlWrite.render).flatten =
        ((nonBlankLines content).map strings.TrimSpace).flatMap
            (fun p => utf8 (specParagraphTag p)) ++
          specFooter ((utf8 time).take 4) := by
      rw [List.map_append, List.flatten_append, paragraphs_render]
      simp only [List.map_cons, List.map_nil, List.flatten_cons, List.flatten_nil,
        List.append_nil, HtmlWrite.render_footer]
    have e2 : ((((nonBlankLines content).map strings.TrimSpace).map HtmlWrite.paragraph ++
        [HtmlWrite.footer ((utf8 time).take 4)]).filter HtmlWrite.isImage).length = 0 := by
      rw [List.filter_append, hpfilter]
      simp [List.filter_cons, HtmlWrite.isImage]
    rw [e1, e2] at h
    exact h
  obtain ⟨⟨h0, _⟩, h1⟩ := generateHTML.writes_zero_or_one_image title time content ht
  have hdoc0 : generateHTML title time content [] =
      some (((HtmlWrite.head title time ::
        (((nonBlankLines content).map strings.TrimSpace).map HtmlWrite.paragraph ++
          [HtmlWrite.footer ((utf8 time).take 4)])).map HtmlWrite.render).flatten) := by
    simp only [generateHTML, h0, Option.map_some']
  have hdoc1 : ∀ url : String, generateHTML title time content [url] =
      some (((HtmlWrite.head title time :: HtmlWrite.headerImage url ::
        (((nonBlankLines content).map strings.TrimSpace).map HtmlWrite.paragraph ++
          [HtmlWrite.footer ((utf8 time).take 4)])).map HtmlWrite.render).flatten) := by
    intro url
    simp only [generateHTML, (h1 url).1, Option.map_some']
  constructor
  · refine ⟨_, hdoc0, ?_, ?_⟩
    · simp only [List.map_cons, List.map_append, List.flatten_cons, List.flatten_append,
        List.map_nil, List.flatten_nil, List.append_nil, paragraphs_render,
        HtmlWrite.render_head, HtmlWrite.render_footer]
    · rw [countOccurrences_render_flatten]
      · simp [List.filter_append, List.filter_cons, HtmlWrite.isImage, hpfilter]
      · intro w hw
        rcases List.mem_cons.mp hw with h | hw
        · rw [h]; exact ⟨htitle, htime⟩
        rcases List.mem_append.mp hw with hw | hw
        · exact hps w hw
        · rw [List.mem_singleton.mp hw]; exact year_clean time
  · intro url hurl
    refine ⟨_, hdoc1 url, ?_, ?_, ?_, htail⟩
    · simp only [List.map_cons, List.map_append, List.flatten_cons, List.flatten_append,
        List.map_nil, List.flatten_nil, List.append_nil, paragraphs_render,
        HtmlWrite.render_head, HtmlWrite.render_footer]
      rfl
    · rw [countOccurrences_render_flatten]
      · simp [List.filter_append, List.filter_cons, HtmlWrite.isImage, hpfilter]
      · intro w hw
        rcases List.mem_cons.mp hw with h | hw
        · rw [h]; exact ⟨htitle, htime⟩
        rcases List.mem_cons.mp hw with h | hw
        · rw [h]; exact hurl
        rcases List.mem_append.mp hw with hw | hw
        · exact hps w hw
        · rw [List.mem_singleton.mp hw]; exact year_clean time
    · have h := countOccurrences_render_append (.headerImage url) hurl []
      have e : HtmlWrite.render (.headerImage url) = utf8 (specHeaderImageBlock url) := rfl
      rw [List.append_nil, e] at h
      rw [h]
      simp [HtmlWrite.isImage, countOccurrences]

/-- A witness for `generateHTML_zero_or_one_image`: seven paragraphs and one image. -/
theorem generateHTML_zero_or_one_image_witness :
    4 ≤ len "2024年01月02日 15:04:05" ∧
      ∃ doc, generateHTML "T" "2024年01月02日 15:04:05" "a\nb\nc\nd\ne\nf\ng"
          ["https://ichef.bbci.co.uk/news/a.jpg"] = some doc ∧
        countOccurrences imageContainerMarkup doc = 1 :=
  ⟨by decide,
    ((generateHTML_zero_or_one_image "T" "2024年01月02日 15:04:05" "a\nb\nc\nd\ne\nf\ng"
      (by decide) (by decide) (by decide) (by decide)).2
      "https://ichef.bbci.co.uk/news/a.jpg" (by decide)).elim
      (fun doc h => ⟨doc, h.1, h.2.2.1⟩)⟩

/-- C8, as stated, fails when the time string has the markup: title and content
are free of it, the time string has more than 4 bytes, the image list is empty,
and the returned bytes contain `<div class="image-container">` once, in the line
of the head that shows the time. -/
theorem generateHTML_markup_in_time :
    (∃ doc, generateHTML "T" "2024<div class=\"image-container\">" "a" [] = some doc ∧
        countOccurrences imageContainerMarkup doc = 1) ∧
      4 ≤ len "2024<div class=\"image-container\">" ∧
      countOccurrences imageContainerMarkup (utf8 "T") = 0 ∧
      countOccurrences imageContainerMarkup (utf8 "a") = 0 :=
  ⟨⟨_, rfl, by decide!⟩, by decide, by decide, by decide⟩
